import Mathlib

/-!
Verification development for the KyzerEyeStockLabs backtesting core.

The definitions below are a shallow embedding of the Python sources
`backend/services/wyckoff_backtest.py`, `backend/services/ema_trading.py`
and `backend/services/stop_loss_optimizer.py`.  Dates are modelled as
integers (a totally ordered date axis; `+1` is one calendar day), prices,
volumes and capital as rationals (the Python floats carry exact decimal
values in every code path a claim touches); `None`-able results are
`Option`s and raised exceptions are `Option`/`Except` error values.
-/

/-- Sum of a list of rationals (Python `sum`). -/
def qsum (l : List ℚ) : ℚ := l.foldl (· + ·) 0

/-- Arithmetic mean of a list of rationals (`np.mean` / pandas `.mean()`),
0 on the empty list (the sources only apply it to nonempty lists except
where noted). -/
def qmean (l : List ℚ) : ℚ := if l.length = 0 then 0 else qsum l / l.length

/-- Mean of the present values of a list of optional rationals: pandas
`.mean()` skips missing (NaN) entries. -/
def meanOfSomes (l : List (Option ℚ)) : ℚ := qmean (l.filterMap id)

/-- Python `int()` applied to a rational: truncation toward zero. -/
def truncQ (q : ℚ) : ℤ := if 0 ≤ q then ⌊q⌋ else ⌈q⌉

/-- One OHLCV price bar (row of the input DataFrame). -/
structure Bar where
  date : ℤ
  openPrice : ℚ
  high : ℚ
  low : ℚ
  close : ℚ
  volume : ℚ
deriving DecidableEq, Repr

/-- Default bar used only as an out-of-range placeholder for `getD`. -/
def dummyBar : Bar := { date := 0, openPrice := 0, high := 0, low := 0, close := 0, volume := 0 }

/-- Close price at index `i` of a bar list. -/
def close_at (bars : List Bar) (i : ℕ) : ℚ := (bars.getD i dummyBar).close

/-- Date at index `i` of a bar list. -/
def date_at (bars : List Bar) (i : ℕ) : ℤ := (bars.getD i dummyBar).date

/-- Volume at index `i` of a bar list. -/
def volume_at (bars : List Bar) (i : ℕ) : ℚ := (bars.getD i dummyBar).volume

/-- Trade interval well-formedness used by several claims: every trade
closes no earlier than it opens, and for any two trades in list order the
earlier one's exit date is at most the later one's entry date (so the
interval interiors are disjoint and at most one position is open at a
time). -/
def intervals_ok (l : List (ℤ × ℤ)) : Prop :=
  (∀ p ∈ l, p.1 ≤ p.2) ∧ l.Pairwise (fun a b => a.2 ≤ b.1)

instance intervals_ok_decidable (l : List (ℤ × ℤ)) : Decidable (intervals_ok l) := by
  unfold intervals_ok; infer_instance

namespace Wyckoff

/-- Wyckoff phase enumeration of `wyckoff_backtest.py` (note: the source
enum has no Unclassified member). -/
inductive Phase where
  | accumulation
  | distribution
  | markup
  | markdown
deriving DecidableEq, Repr

/-- Trade action enumeration. -/
inductive Action where
  | buy
  | sell
  | hold
deriving DecidableEq, Repr

/-- Rolling 20-bar mean of volume ending at index `i`
(`df['volume'].rolling(window=20).mean()`): missing (NaN) before 19
complete periods. -/
def volume_sma_20 (vols : List ℚ) (i : ℕ) : Option ℚ :=
  if i + 1 < 20 then none
  else some (qmean ((vols.drop (i + 1 - 20)).take 20))

/-- Per-bar volume over its rolling 20-bar mean
(`df['volume'] / df['volume_sma_20']`); missing while the rolling mean is
missing.  (Pandas would yield an infinity on a zero rolling mean; in ℚ the
division yields 0.  No claim-relevant input has zero mean volume.) -/
def volume_ratio_at (vols : List ℚ) (i : ℕ) : Option ℚ :=
  (volume_sma_20 vols i).map (fun m => (vols.getD i 0) / m)

/-- Net price change over the trailing 20-bar window at index `i`:
`(recent['close'].iloc[-1] - recent['close'].iloc[0]) / recent['close'].iloc[0]`
where `recent = df.iloc[:i+1].tail(20)`. -/
def price_trend_at (closes : List ℚ) (i : ℕ) : ℚ :=
  let c0 := closes.getD (i + 1 - 20) 0
  (closes.getD i 0 - c0) / c0

/-- Mean of the trailing 20 `volume_ratio` values at index `i`
(`recent_data['volume_ratio'].mean()`; pandas mean skips NaN entries). -/
def volume_trend_at (vols : List ℚ) (i : ℕ) : ℚ :=
  meanOfSomes ((((List.range (i + 1)).drop (i + 1 - 20)).map (volume_ratio_at vols)))

/-- Result of `_analyze_current_phase` (the `volatility` entry of the
source dict is computed but never read downstream and is omitted;
likewise the `price` entry is always the last close on the reachable
branch). -/
structure PhaseAnalysis where
  phase : Phase
  confidence : ℚ
  price_trend : ℚ
  volume_trend : ℚ
  price : ℚ
deriving DecidableEq, Repr

/-- Embedding of `_analyze_current_phase` on the data prefix `df.iloc[:i+1]`.
The `len(df) < 20` guard of the source returns a degenerate dict (without a
`price` key, which would fault downstream); it is unreachable from
`run_backtest`, whose scan starts at index 30. -/
def analyze_current_phase (bars : List Bar) (i : ℕ) : PhaseAnalysis :=
  let closes := bars.map (·.close)
  let vols := bars.map (·.volume)
  if i + 1 < 20 then
    { phase := .markup, confidence := 1/2, price_trend := 0, volume_trend := 1,
      price := closes.getD i 0 }
  else
    let pt := price_trend_at closes i
    let vt := volume_trend_at vols i
    let (ph, conf) :=
      if |pt| < 2/100 ∧ vt > 12/10 then (Phase.accumulation, (8:ℚ)/10)
      else if |pt| < 2/100 ∧ vt < 8/10 then (Phase.distribution, 8/10)
      else if pt > 5/100 ∧ vt > 11/10 then (Phase.markup, 9/10)
      else if pt < -5/100 then (Phase.markdown, 9/10)
      else (Phase.markup, 6/10)
    { phase := ph, confidence := conf, price_trend := pt, volume_trend := vt,
      price := closes.getD i 0 }

/-- A Wyckoff trading signal.  The source field `volume_ratio` (which holds
the window volume trend) is named `vol_trend` here; the `support_level` and
`resistance_level` fields are computed by `_calculate_support_resistance`
but never read by the simulator and are omitted. -/
structure Signal where
  date : ℤ
  phase : Phase
  action : Action
  price : ℚ
  vol_trend : ℚ
  confidence : ℚ
  reasoning : String
deriving DecidableEq, Repr

/-- Embedding of `_generate_signal` at bar index `i` (action table of the
source; its final `else` arm is dead code since the four enum members are
all matched). -/
def generate_signal (bars : List Bar) (i : ℕ) : Signal :=
  let pa := analyze_current_phase bars i
  let (act, reason) :=
    match pa.phase with
    | .accumulation =>
      if pa.volume_trend > 3/2 then (Action.buy, "High volume accumulation - institutional buying")
      else (Action.hold, "Accumulation phase - waiting for volume confirmation")
    | .distribution =>
      if pa.volume_trend > 3/2 then (Action.sell, "High volume distribution - institutional selling")
      else (Action.hold, "Distribution phase - waiting for volume confirmation")
    | .markup => (Action.buy, "Strong uptrend with volume confirmation")
    | .markdown => (Action.sell, "Downtrend phase - avoid long positions")
  { date := date_at bars i, phase := pa.phase, action := act, price := pa.price,
    vol_trend := pa.volume_trend, confidence := pa.confidence, reasoning := reason }

end Wyckoff

namespace Wyckoff

/-- Position sizing fraction (`position_size_percent = 0.95`). -/
def position_size_percent : ℚ := 95/100

/-- Fixed stop-loss fraction (`stop_loss_percent = 0.08`). -/
def stop_loss_percent : ℚ := 8/100

/-- Fixed take-profit fraction (`take_profit_percent = 0.15`). -/
def take_profit_percent : ℚ := 15/100

/-- Maximum holding duration in calendar days (`max_trade_duration = 60`). -/
def max_trade_duration : ℤ := 60

/-- An open position.  The source reuses its mutable `Trade` dataclass with
the exit fields still `None`; only the entry-side fields are live while the
position is open. -/
structure Position where
  entry_date : ℤ
  entry_price : ℚ
  shares : ℤ
  action : Action
  entry_phase : Phase
  entry_reasoning : String
deriving DecidableEq, Repr

/-- A closed trade record. -/
structure Trade where
  entry_date : ℤ
  exit_date : ℤ
  entry_price : ℚ
  exit_price : ℚ
  action : Action
  shares : ℤ
  entry_phase : Phase
  exit_phase : Phase
  pnl : ℚ
  pnl_percent : ℚ
  duration_days : ℤ
  entry_reasoning : String
  exit_reasoning : String
deriving DecidableEq, Repr

/-- Embedding of `_enter_position`: abort on a HOLD signal, size the
position as `int(capital * 0.95 / price)` shares, abort when that is ≤ 0.
(The local stop-loss/take-profit levels the source computes here are not
stored anywhere and are omitted.) -/
def enter_position (capital : ℚ) (s : Signal) : Option Position :=
  if s.action = Action.hold then none
  else
    let shares := truncQ (capital * position_size_percent / s.price)
    if shares ≤ 0 then none
    else some { entry_date := s.date, entry_price := s.price, shares := shares,
                action := s.action, entry_phase := s.phase, entry_reasoning := s.reasoning }

/-- Embedding of `_should_exit_position` evaluated with the current bar's
close `cl` and the current bar's signal `s` (the source reads
`df['close'].iloc[-1]` and `signal.date`): the if-chain checks, in order,
the holding-duration limit, then stop-loss, then take-profit (long or short
according to the position), then the two opposing-phase conditions. -/
def should_exit_position (p : Position) (cl : ℚ) (s : Signal) : Bool :=
  let days_held := s.date - p.entry_date
  if days_held ≥ max_trade_duration then true
  else if p.action = Action.buy ∧ cl ≤ p.entry_price * (1 - stop_loss_percent) then true
  else if p.action = Action.buy ∧ cl ≥ p.entry_price * (1 + take_profit_percent) then true
  else if p.action ≠ Action.buy ∧ cl ≥ p.entry_price * (1 + stop_loss_percent) then true
  else if p.action ≠ Action.buy ∧ cl ≤ p.entry_price * (1 - take_profit_percent) then true
  else if p.action = Action.buy ∧ s.phase = Phase.distribution then true
  else if p.action = Action.sell ∧ s.phase = Phase.accumulation then true
  else false

/-- Embedding of `_close_position` at close price `cl` under signal `s`:
builds the finished trade; the caller adds `pnl` to the running capital
(the source mutates `self.current_capital` here). -/
def close_position (p : Position) (cl : ℚ) (s : Signal) : Trade :=
  let pnl := if p.action = Action.buy then (cl - p.entry_price) * (p.shares : ℚ)
             else (p.entry_price - cl) * (p.shares : ℚ)
  { entry_date := p.entry_date, exit_date := s.date,
    entry_price := p.entry_price, exit_price := cl,
    action := p.action, shares := p.shares,
    entry_phase := p.entry_phase, exit_phase := s.phase,
    pnl := pnl,
    pnl_percent := pnl / (p.entry_price * (p.shares : ℚ)) * 100,
    duration_days := s.date - p.entry_date,
    entry_reasoning := p.entry_reasoning, exit_reasoning := s.reasoning }

/-- Embedding of `_calculate_portfolio_value`: realized capital plus the
mark-to-close unrealized profit or loss of the open position, if any. -/
def portfolio_value (pos : Option Position) (capital cl : ℚ) : ℚ :=
  match pos with
  | none => capital
  | some p =>
    if p.action = Action.buy then capital + (cl - p.entry_price) * (p.shares : ℚ)
    else capital + (p.entry_price - cl) * (p.shares : ℚ)

/-- Mutable loop state of `run_backtest`. -/
structure EngineState where
  capital : ℚ
  position : Option Position
  trades : List Trade
  signals : List Signal
  equity : List (ℤ × ℚ)
deriving DecidableEq, Repr

/-- First scanned bar index (`for i in range(30, len(df))`). -/
def scan_start : ℕ := 30

/-- Exit-handling block of the `run_backtest` loop body at bar index `i`:
with an open position, close it when `_should_exit_position` fires (the
`_update_position` call of the source is the identity). -/
def exit_stage (bars : List Bar) (st : EngineState) (i : ℕ) : EngineState :=
  match st.position with
  | none => st
  | some p =>
    let s := generate_signal bars i
    let cl := close_at bars i
    if should_exit_position p cl s then
      let t := close_position p cl s
      { st with capital := st.capital + t.pnl, position := none,
                trades := st.trades ++ [t] }
    else st

/-- Entry block of the `run_backtest` loop body: while flat, an actionable
signal attempts an entry. -/
def entry_stage (bars : List Bar) (st : EngineState) (i : ℕ) : EngineState :=
  match st.position with
  | some _ => st
  | none =>
    let s := generate_signal bars i
    if s.action ≠ Action.hold then
      match enter_position st.capital s with
      | some p => { st with position := some p }
      | none => st
    else st

/-- One iteration of the `run_backtest` scan loop at bar index `i`:
record the signal, exit-check an open position, try a new entry when
flat, then append the equity point for this bar. -/
def scan_step (bars : List Bar) (st : EngineState) (i : ℕ) : EngineState :=
  let s := generate_signal bars i
  let st0 := { st with signals := st.signals ++ [s] }
  let st2 := entry_stage bars (exit_stage bars st0 i) i
  { st2 with equity := st2.equity ++
      [(s.date, portfolio_value st2.position st2.capital (close_at bars i))] }

/-- Initial loop state. -/
def init_state (cap0 : ℚ) : EngineState :=
  { capital := cap0, position := none, trades := [], signals := [], equity := [] }

/-- State after scanning the first `k` bars of the scan range
(`i = 30, …, 30+k-1`). -/
def state_at (cap0 : ℚ) (bars : List Bar) (k : ℕ) : EngineState :=
  (List.range' scan_start k).foldl (scan_step bars) (init_state cap0)

/-- Results record assembled at the end of `run_backtest` (the
`performance_metrics` and `phase_analysis` aggregates are separate
functions below). -/
structure BacktestResults where
  start_date : ℤ
  end_date : ℤ
  total_days : ℤ
  trades : List Trade
  signals : List Signal
  equity : List (ℤ × ℚ)
  final_capital : ℚ
deriving DecidableEq, Repr

/-- Embedding of `run_backtest` with initial capital `cap0`.  On at most
30 bars the source faults (the loop body never runs, so the
`portfolio_value` local in the closing `print` is unbound, and
`df.index[30]` is out of range); this is modelled as `none`.  Otherwise
the scan runs from index 30 and any position still open afterwards is
force-closed at the final bar's close under the synthetic end-of-period
HOLD signal. -/
def run_backtest (cap0 : ℚ) (bars : List Bar) : Option BacktestResults :=
  if bars.length < scan_start + 1 then none
  else
    let st := state_at cap0 bars (bars.length - scan_start)
    let lastBar := bars.getLastD dummyBar
    let final :=
      match st.position with
      | none => st
      | some p =>
        let fs : Signal :=
          { date := lastBar.date, phase := .markup, action := .hold,
            price := lastBar.close, vol_trend := 1, confidence := 0,
            reasoning := "End of backtest period" }
        let t := close_position p lastBar.close fs
        { st with capital := st.capital + t.pnl, position := none,
                  trades := st.trades ++ [t] }
    some { start_date := date_at bars scan_start, end_date := lastBar.date,
           total_days := (bars.length : ℤ) - 30,
           trades := final.trades, signals := final.signals,
           equity := final.equity, final_capital := final.capital }

/-- Gross profit over a trade list: sum of the positive trade P&Ls
(`sum(wins) if wins else 0`). -/
def gross_profit (trades : List Trade) : ℚ :=
  qsum ((trades.filter (fun t => 0 < t.pnl)).map (·.pnl))

/-- Gross loss over a trade list: absolute sum of the negative trade P&Ls
(`abs(sum(losses)) if losses else 0`). -/
def gross_loss (trades : List Trade) : ℚ :=
  |qsum ((trades.filter (fun t => t.pnl < 0)).map (·.pnl))|

end Wyckoff

/-- Profit factor value: a nonnegative rational or the flagged unbounded
value (`float('inf')` in the sources). -/
inductive PFValue where
  | inf
  | val (q : ℚ)
deriving DecidableEq, Repr

namespace Wyckoff

/-- Profit-factor arm of `_calculate_performance_metrics`: 0 with no trades
(the early-return branch), else `gross_profit / gross_loss` when there is
any loss, else unbounded when there is any profit, else 0. -/
def profit_factor_of (trades : List Trade) : PFValue :=
  if trades = [] then .val 0
  else if 0 < gross_loss trades then .val (gross_profit trades / gross_loss trades)
  else if 0 < gross_profit trades then .inf
  else .val 0

end Wyckoff

namespace EMA

/-- Exponentially weighted mean with `adjust=False`
(`data.ewm(span=period, adjust=False).mean()`): `e_0 = x_0`,
`e_i = α·x_i + (1-α)·e_{i-1}` with `α = 2/(span+1)`. -/
def ewm_rec (alpha : ℚ) (prev : ℚ) : List ℚ → List ℚ
  | [] => []
  | x :: xs =>
    let e := alpha * x + (1 - alpha) * prev
    e :: ewm_rec alpha e xs

/-- Full EWM series of a list. -/
def ewm_series (span : ℕ) : List ℚ → List ℚ
  | [] => []
  | x :: xs => x :: ewm_rec (2 / (span + 1 : ℚ)) x xs

/-- True range series of `calculate_atr`: on the first bar the two
shifted terms are missing and the pandas row-max skips them, leaving
`high - low`; afterwards
`max(high-low, |high-prev_close|, |low-prev_close|)`. -/
def true_range (bars : List Bar) (i : ℕ) : ℚ :=
  let b := bars.getD i dummyBar
  if i = 0 then b.high - b.low
  else
    let pc := (bars.getD (i - 1) dummyBar).close
    max (b.high - b.low) (max |b.high - pc| |b.low - pc|)

/-- ATR series (`calculate_atr`): EWM (span = period, adjust=False) of the
true range. -/
def atr_series (period : ℕ) (bars : List Bar) : List ℚ :=
  ewm_series period ((List.range bars.length).map (true_range bars))

/-- EMA engine constants (`ema_21_period`, `ema_50_period`, `atr_period`,
`atr_multiplier`). -/
def ema_21_period : ℕ := 21

/-- The 50-bar EMA period. -/
def ema_50_period : ℕ := 50

/-- The ATR period. -/
def atr_period : ℕ := 14

/-- The trailing-stop ATR multiplier (2.0). -/
def atr_multiplier : ℚ := 2

/-- Reason tag of an EMA signal.  The source carries a formatted text; its
only downstream use is the substring test
`'trailing stop' in signal.reasoning.lower()`, so only the template
identity matters and is kept as a tag. -/
inductive EMAReason where
  | crossedAbove50
  | closedBelow21
  | hitTrailingStop
deriving DecidableEq, Repr

/-- An EMA trading signal.  The numeric context fields of the source
(`ema_21`, `ema_50`, `confidence`, `atr`, `trailing_stop`) are never read
by `_execute_trades` and are omitted. -/
structure EMASignal where
  date : ℤ
  signal_type : Wyckoff.Action
  reason : EMAReason
deriving DecidableEq, Repr

/-- Loop state of `_generate_signals`. -/
structure SigGenState where
  in_trade : Bool
  trailing_stop : Option ℚ
  highest : Option ℚ
  out : List EMASignal
deriving DecidableEq, Repr

/-- Trailing-stop bookkeeping of one `_generate_signals` iteration: on a
new high (or an unset highest), the highest price and the trailing stop
are refreshed; the result is the pair (highest', trailing_stop'). -/
def trailing_update (st : SigGenState) (cl a : ℚ) : Option ℚ × Option ℚ :=
  if st.highest = none ∨ ∃ h, st.highest = some h ∧ cl > h then
    (some cl, some (cl - a * atr_multiplier))
  else (st.highest, st.trailing_stop)

/-- SELL decision of one `_generate_signals` iteration: a fresh close
below the 21-EMA sells; otherwise (the `elif`) a close below the updated
trailing stop sells. -/
def sell_signal (bars : List Bar) (ema21 : List ℚ) (i : ℕ) (cl e21 : ℚ)
    (tstop : Option ℚ) : Option EMAReason :=
  if cl < e21 then
    if 0 < i ∧ close_at bars (i - 1) ≥ ema21.getD (i - 1) 0 then some .closedBelow21
    else none
  else if ∃ t, tstop = some t ∧ cl < t then some .hitTrailingStop
  else none

/-- One iteration of the `_generate_signals` loop at bar index `i`.  The
`pd.isna` skip of the source never fires: with `adjust=False` both EMAs
and the ATR are defined from row 0. -/
def sig_step (bars : List Bar) (ema21 ema50 atr : List ℚ) (st : SigGenState) (i : ℕ) :
    SigGenState :=
  let cl := close_at bars i
  let e21 := ema21.getD i 0
  let e50 := ema50.getD i 0
  let a := atr.getD i 0
  if ¬st.in_trade ∧ cl > e50 then
    if 0 < i ∧ close_at bars (i - 1) ≤ ema50.getD (i - 1) 0 then
      { in_trade := true,
        trailing_stop := some (cl - a * atr_multiplier),
        highest := some cl,
        out := st.out ++ [{ date := date_at bars i, signal_type := .buy,
                            reason := .crossedAbove50 }] }
    else st
  else if st.in_trade then
    let hu := trailing_update st cl a
    match sell_signal bars ema21 i cl e21 hu.2 with
    | some r =>
      { in_trade := false, trailing_stop := none, highest := none,
        out := st.out ++ [{ date := date_at bars i, signal_type := .sell, reason := r }] }
    | none => { st with trailing_stop := hu.2, highest := hu.1 }
  else st

/-- Embedding of `_generate_signals`: scan from
`max(ema_50_period, atr_period) = 50`. -/
def generate_ema_signals (bars : List Bar) : List EMASignal :=
  let closes := bars.map (·.close)
  let ema21 := ewm_series ema_21_period closes
  let ema50 := ewm_series ema_50_period closes
  let atr := atr_series atr_period bars
  let start := max ema_50_period atr_period
  ((List.range' start (bars.length - start)).foldl (sig_step bars ema21 ema50 atr)
    { in_trade := false, trailing_stop := none, highest := none, out := [] }).out

/-- An open EMA position (the dict built in `_execute_trades`). -/
structure EMAPosition where
  entry_date : ℤ
  entry_price : ℚ
  shares : ℤ
deriving DecidableEq, Repr

/-- A closed EMA trade.  `exit_reason` is `none` for the end-of-period
force close (the source leaves the dataclass default `None` there). -/
structure EMATrade where
  entry_date : ℤ
  exit_date : ℤ
  entry_price : ℚ
  exit_price : ℚ
  shares : ℤ
  pnl : ℚ
  pnl_percent : ℚ
  duration_days : ℤ
  exit_reason : Option String
deriving DecidableEq, Repr

/-- Loop state of `_execute_trades`. -/
structure ExecState where
  position : Option EMAPosition
  available : ℚ
  trades : List EMATrade
deriving DecidableEq, Repr

/-- The `date_to_index` lookup of `_execute_trades`: index of the first
bar carrying the given date. -/
def index_of_date (bars : List Bar) (d : ℤ) : Option ℕ :=
  bars.findIdx? (fun b => b.date = d)

/-- Exit-reason tag of a SELL signal
(`'TRAILING_STOP' if 'trailing stop' in signal.reasoning.lower() else 'EMA_SIGNAL'`). -/
def ema_exit_reason (r : EMAReason) : String :=
  if r = EMAReason.hitTrailingStop then "TRAILING_STOP" else "EMA_SIGNAL"

/-- One signal of the `_execute_trades` loop: entries and exits are filled
at the next bar's open; a signal whose date has no successor bar is
skipped. -/
def exec_step (bars : List Bar) (st : ExecState) (s : EMASignal) : ExecState :=
  if s.signal_type = Wyckoff.Action.buy ∧ st.position = none then
    match index_of_date bars s.date with
    | none => st
    | some idx =>
      if idx + 1 < bars.length then
        let op := (bars.getD (idx + 1) dummyBar).openPrice
        let shares := truncQ (st.available / op)
        if 0 < shares then
          { st with position := some { entry_date := s.date, entry_price := op, shares := shares },
                    available := st.available - (shares : ℚ) * op }
        else st
      else st
  else if s.signal_type = Wyckoff.Action.sell ∧ st.position ≠ none then
    match st.position, index_of_date bars s.date with
    | some p, some idx =>
      if idx + 1 < bars.length then
        let op := (bars.getD (idx + 1) dummyBar).openPrice
        let pnl := (p.shares : ℚ) * (op - p.entry_price)
        { position := none,
          available := st.available + (p.shares : ℚ) * op,
          trades := st.trades ++
            [{ entry_date := p.entry_date, exit_date := s.date,
               entry_price := p.entry_price, exit_price := op,
               shares := p.shares, pnl := pnl,
               pnl_percent := (op - p.entry_price) / p.entry_price * 100,
               duration_days := s.date - p.entry_date,
               exit_reason := some (ema_exit_reason s.reason) }] }
      else st
    | _, _ => st
  else st

/-- Embedding of `_execute_trades` with initial capital `cap0`: process
the signals in order, then force-close any remaining position at the last
bar's close. -/
def execute_trades (cap0 : ℚ) (bars : List Bar) (signals : List EMASignal) : List EMATrade :=
  let final := signals.foldl (exec_step bars) { position := none, available := cap0, trades := [] }
  match final.position with
  | none => final.trades
  | some p =>
    let lastBar := bars.getLastD dummyBar
    let pnl := (p.shares : ℚ) * (lastBar.close - p.entry_price)
    final.trades ++
      [{ entry_date := p.entry_date, exit_date := lastBar.date,
         entry_price := p.entry_price, exit_price := lastBar.close,
         shares := p.shares, pnl := pnl,
         pnl_percent := (lastBar.close - p.entry_price) / p.entry_price * 100,
         duration_days := lastBar.date - p.entry_date,
         exit_reason := none }]

/-- Results of `run_analysis` (the performance metrics and equity curve of
the source are separate aggregates not referenced by any claim about this
engine and are omitted). -/
structure EMAResults where
  start_date : ℤ
  end_date : ℤ
  total_days : ℕ
  trades : List EMATrade
  signals : List EMASignal
deriving DecidableEq, Repr

/-- Embedding of `run_analysis` with initial capital `cap0`: raises
(`ValueError`, the error the specification names `InsufficientDataError`)
when fewer than `ema_50_period = 50` bars are supplied; otherwise
generates signals and executes trades. -/
def run_analysis (cap0 : ℚ) (bars : List Bar) : Except String EMAResults :=
  if bars.length < ema_50_period then
    .error "Not enough data for EMA analysis. Need at least 50 days"
  else
    let signals := generate_ema_signals bars
    .ok { start_date := date_at bars 0, end_date := (bars.getLastD dummyBar).date,
          total_days := bars.length,
          trades := execute_trades cap0 bars signals, signals := signals }

end EMA

namespace SLOpt

/-- A simplified momentum signal of `_generate_trading_signals` (dict with
`date`, `action`, `price`; its `volume` entry is never read downstream and
is omitted). -/
structure SLSignal where
  date : ℤ
  action : Wyckoff.Action
  price : ℚ
deriving DecidableEq, Repr

/-- An open position of `_backtest_with_stop_loss` — note the share count
is the full `capital / price`, a rational, not a floored integer. -/
structure SLPosition where
  shares : ℚ
  entry_price : ℚ
  entry_date : ℤ
  entry_capital : ℚ
deriving DecidableEq, Repr

/-- A closed trade of `_backtest_with_stop_loss`. -/
structure SLTrade where
  entry_date : ℤ
  exit_date : ℤ
  entry_price : ℚ
  exit_price : ℚ
  shares : ℚ
  pnl : ℚ
  pnl_percent : ℚ
  exit_reason : String
deriving DecidableEq, Repr

/-- Loop state of `_backtest_with_stop_loss`. -/
structure SLState where
  capital : ℚ
  position : Option SLPosition
  trades : List SLTrade
  equity : List ℚ
deriving DecidableEq, Repr

/-- One signal of the `_backtest_with_stop_loss` loop: a BUY while flat
opens a long of `capital / price` shares; a SELL while in a position exits
at the signal price, clipped up at the stop level
`entry_price * (1 - sl)` — exit reason `"Stop Loss"` when the clip binds,
else `"Signal"`. -/
def sl_step (sl : ℚ) (st : SLState) (s : SLSignal) : SLState :=
  if s.action = Wyckoff.Action.buy ∧ st.position = none then
    { st with position := some { shares := st.capital / s.price, entry_price := s.price,
                                 entry_date := s.date, entry_capital := st.capital } }
  else if s.action = Wyckoff.Action.sell ∧ st.position ≠ none then
    match st.position with
    | none => st
    | some p =>
      let stop_loss_price := p.entry_price * (1 - sl)
      let (exit_price, exit_reason) :=
        if s.price ≤ stop_loss_price then (stop_loss_price, "Stop Loss")
        else (s.price, "Signal")
      let pnl := (exit_price - p.entry_price) * p.shares
      let capital := st.capital + pnl
      { capital := capital, position := none,
        trades := st.trades ++
          [{ entry_date := p.entry_date, exit_date := s.date,
             entry_price := p.entry_price, exit_price := exit_price,
             shares := p.shares, pnl := pnl,
             pnl_percent := (exit_price - p.entry_price) / p.entry_price * 100,
             exit_reason := exit_reason }],
        equity := st.equity ++ [capital] }
  else st

/-- Raw outcome of one `_backtest_with_stop_loss` run (trade list, final
capital and equity curve; the metric fields of the returned
`StopLossResult` are the separate aggregates below). -/
structure SLRun where
  trades : List SLTrade
  capital : ℚ
  equity : List ℚ
deriving DecidableEq, Repr

/-- Embedding of the `_backtest_with_stop_loss` simulation loop with
initial capital `cap0` over period `[ps, pe]`: scan the signals in order,
then force-close any remaining position at the period's last bar
(`period_data.iloc[-1]`; with no bar in the period the source faults with
an IndexError, modelled as `none`). -/
def backtest_with_stop_loss (cap0 : ℚ) (bars : List Bar) (signals : List SLSignal)
    (sl : ℚ) (ps pe : ℤ) : Option SLRun :=
  let period_data := bars.filter (fun b => ps ≤ b.date ∧ b.date ≤ pe)
  let final := signals.foldl (sl_step sl)
    { capital := cap0, position := none, trades := [], equity := [cap0] }
  match final.position with
  | none => some { trades := final.trades, capital := final.capital, equity := final.equity }
  | some p =>
    match period_data.getLast? with
    | none => none
    | some b =>
      let pnl := (b.close - p.entry_price) * p.shares
      let capital := final.capital + pnl
      some { trades := final.trades ++
               [{ entry_date := p.entry_date, exit_date := b.date,
                  entry_price := p.entry_price, exit_price := b.close,
                  shares := p.shares, pnl := pnl,
                  pnl_percent := (b.close - p.entry_price) / p.entry_price * 100,
                  exit_reason := "Period End" }],
             capital := capital, equity := final.equity ++ [capital] }

/-- Win rate of a trade list
(`len(winning_trades) / len(trades) * 100`, 0 with no trades). -/
def sl_win_rate (trades : List SLTrade) : ℚ :=
  if trades.length = 0 then 0
  else ((trades.filter (fun t => 0 < t.pnl)).length : ℚ) / (trades.length : ℚ) * 100

/-- Average winning-trade P&L (0 with no winners). -/
def sl_avg_win (trades : List SLTrade) : ℚ :=
  let wins := (trades.filter (fun t => 0 < t.pnl)).map (·.pnl)
  if wins = [] then 0 else qmean wins

/-- Average losing-trade P&L (0 with no losers; negative otherwise). -/
def sl_avg_loss (trades : List SLTrade) : ℚ :=
  let losses := (trades.filter (fun t => t.pnl < 0)).map (·.pnl)
  if losses = [] then 0 else qmean losses

/-- Profit factor of `_backtest_with_stop_loss`
(`abs(avg_win / avg_loss) if avg_loss != 0 else float('inf')`; the
no-trades early return yields 0). -/
def sl_profit_factor (trades : List SLTrade) : PFValue :=
  if trades = [] then .val 0
  else if sl_avg_loss trades ≠ 0 then .val |sl_avg_win trades / sl_avg_loss trades|
  else .inf

/-- Maximum drawdown (percent) over an equity curve, peak seeded with the
initial capital. -/
def sl_max_drawdown (cap0 : ℚ) (equity : List ℚ) : ℚ :=
  (equity.foldl
    (fun (acc : ℚ × ℚ) e =>
      let peak := if e > acc.1 then e else acc.1
      let dd := (peak - e) / peak * 100
      (peak, if dd > acc.2 then dd else acc.2))
    (cap0, 0)).2

/-- Population variance of a list of rationals (`np.std` squared). -/
def qvariance (l : List ℚ) : ℚ := qmean (l.map (fun x => (x - qmean l)^2))

/-- Standard deviation (`np.std`, population). -/
noncomputable def qstd (l : List ℚ) : ℝ := Real.sqrt ((qvariance l : ℚ) : ℝ)

/-- Per-trade return list used by the optimizer's Sharpe
(`[t['pnl_percent'] for t in trades]`). -/
def sl_returns (trades : List SLTrade) : List ℚ := trades.map (·.pnl_percent)

section
open Classical

/-- Simplified Sharpe ratio of `_backtest_with_stop_loss`
(`np.mean(returns) / np.std(returns)` when there are at least two returns
with positive dispersion, else 0; no annualization in this engine). -/
noncomputable def sl_sharpe (trades : List SLTrade) : ℝ :=
  let r := sl_returns trades
  if 1 < r.length ∧ 0 < qstd r then ((qmean r : ℚ) : ℝ) / qstd r else 0

/-- Period score of `_optimize_by_period`
(`sharpe_ratio * 0.6 + (win_rate / 100) * 0.4`). -/
noncomputable def score060 (trades : List SLTrade) : ℝ :=
  sl_sharpe trades * (6/10 : ℝ) + ((sl_win_rate trades / 100 : ℚ) : ℝ) * (4/10 : ℝ)

/-- Discrete stop-loss grid (`test_intervals`). -/
def test_intervals : List ℚ :=
  [2/100, 3/100, 4/100, 5/100, 6/100, 7/100, 8/100, 9/100, 10/100, 12/100, 15/100, 18/100, 20/100]

/-- One comparison of the `_optimize_by_period` inner loop
(`if score > best_score: best_score, best_result = score, result`). -/
noncomputable def pick_step : Option (ℚ × SLRun) → ℚ × SLRun → Option (ℚ × SLRun)
  | none, c => some c
  | some b, c =>
    if score060 b.2.trades < score060 c.2.trades then some c else some b

/-- Best-so-far selection of the `_optimize_by_period` inner loop:
`best_score` starts at `-inf`, so the first candidate is always taken;
afterwards a candidate replaces the best exactly on a strictly greater
score. -/
noncomputable def pick_best (cands : List (ℚ × SLRun)) : Option (ℚ × SLRun) :=
  cands.foldl pick_step none

/-- All grid candidates with their runs, in grid order (`none` when any
run faults, which aborts the whole optimization in the source). -/
def candidate_runs (cap0 : ℚ) (bars : List Bar) (signals : List SLSignal)
    (ps pe : ℤ) : List ℚ → Option (List (ℚ × SLRun))
  | [] => some []
  | sl :: rest =>
    match backtest_with_stop_loss cap0 bars signals sl ps pe with
    | none => none
    | some r => (candidate_runs cap0 bars signals ps pe rest).map (fun l => (sl, r) :: l)

/-- Inner loop of `_optimize_by_period` for one retained bucket. -/
noncomputable def optimize_one_period (cap0 : ℚ) (bars : List Bar) (signals : List SLSignal)
    (ps pe : ℤ) : Option (ℚ × SLRun) :=
  match candidate_runs cap0 bars signals ps pe test_intervals with
  | none => none
  | some cands => pick_best cands

/-- Embedding of `_optimize_by_period` over an explicit bucket list (the
calendar bucket construction `_get_monthly/quarterly/yearly_periods`
supplies `periods`; buckets with fewer than 5 signals are skipped, the
rest contribute their best grid candidate in order). -/
noncomputable def optimize_by_period (cap0 : ℚ) (bars : List Bar) (signals : List SLSignal) :
    List (ℤ × ℤ) → Option (List (ℚ × SLRun))
  | [] => some []
  | (ps, pe) :: rest =>
    let psig := signals.filter (fun s => ps ≤ s.date ∧ s.date ≤ pe)
    if psig.length < 5 then optimize_by_period cap0 bars signals rest
    else
      match optimize_one_period cap0 bars psig ps pe with
      | none => none
      | some b => (optimize_by_period cap0 bars signals rest).map (b :: ·)

end

end SLOpt

namespace Wyckoff

/-- Exit triggers named by the specification's ordered rule list
(duration → stop-loss → take-profit → opposing phase).  The specification
additionally lists an opposite-signal trigger; see the C1 analysis. -/
inductive ExitTrigger where
  | duration
  | stopLoss
  | takeProfit
  | opposingPhase
deriving DecidableEq, Repr

/-- Holding-duration trigger: at least `max_trade_duration` days held. -/
def duration_hit (p : Position) (s : Signal) : Prop :=
  s.date - p.entry_date ≥ max_trade_duration

/-- Stop-loss trigger at close `cl` (long below, short above the band). -/
def stop_loss_hit (p : Position) (cl : ℚ) : Prop :=
  if p.action = Action.buy then cl ≤ p.entry_price * (1 - stop_loss_percent)
  else cl ≥ p.entry_price * (1 + stop_loss_percent)

/-- Take-profit trigger at close `cl`. -/
def take_profit_hit (p : Position) (cl : ℚ) : Prop :=
  if p.action = Action.buy then cl ≥ p.entry_price * (1 + take_profit_percent)
  else cl ≤ p.entry_price * (1 - take_profit_percent)

/-- Opposing-phase trigger: long into Distribution, short into
Accumulation. -/
def opposing_phase_hit (p : Position) (s : Signal) : Prop :=
  (p.action = Action.buy ∧ s.phase = Phase.distribution) ∨
  (p.action = Action.sell ∧ s.phase = Phase.accumulation)

/-- The specification's fifth trigger: the current signal carries the
action opposite to the open position. -/
def opposite_action (p : Position) (s : Signal) : Prop :=
  (p.action = Action.buy ∧ s.action = Action.sell) ∨
  (p.action = Action.sell ∧ s.action = Action.buy)

instance (p : Position) (s : Signal) : Decidable (duration_hit p s) := by
  unfold duration_hit; infer_instance

instance (p : Position) (cl : ℚ) : Decidable (stop_loss_hit p cl) := by
  unfold stop_loss_hit; infer_instance

instance (p : Position) (cl : ℚ) : Decidable (take_profit_hit p cl) := by
  unfold take_profit_hit; infer_instance

instance (p : Position) (s : Signal) : Decidable (opposing_phase_hit p s) := by
  unfold opposing_phase_hit; infer_instance

instance (p : Position) (s : Signal) : Decidable (opposite_action p s) := by
  unfold opposite_action; infer_instance

/-- Modelled from the spec: the first satisfied trigger in the
specification's precedence order, restricted to the four triggers the
source actually checks. -/
def first_exit_trigger (p : Position) (cl : ℚ) (s : Signal) : Option ExitTrigger :=
  if duration_hit p s then some .duration
  else if stop_loss_hit p cl then some .stopLoss
  else if take_profit_hit p cl then some .takeProfit
  else if opposing_phase_hit p s then some .opposingPhase
  else none

end Wyckoff

/-- A perfectly flat constant series of `n` daily bars. -/
def flatBarsN (n : ℕ) : List Bar :=
  (List.range n).map (fun i =>
    { date := (i : ℤ), openPrice := 100, high := 100, low := 100, close := 100, volume := 1000 })

/-- The 100-bar flat series of the specification's Scenario A. -/
def flatBars : List Bar := flatBarsN 100

/-- Thirty-one flat bars followed by a 20% drop: after the entry on bar 30
the close on bar 31 breaches the 8% fixed stop. -/
def dropBars : List Bar :=
  flatBarsN 31 ++ [{ date := 31, openPrice := 80, high := 80, low := 80, close := 80, volume := 1000 }]

/-- Two bars used by the fractional-share counterexample. -/
def slBars2 : List Bar :=
  [{ date := 0, openPrice := 3, high := 3, low := 3, close := 3, volume := 1 },
   { date := 1, openPrice := 3, high := 3, low := 3, close := 4, volume := 1 }]

/-- A single BUY signal at price 3. -/
def slSig1 : List SLOpt.SLSignal := [{ date := 0, action := .buy, price := 3 }]

/-- Signals producing two winners (P&L 10000 and 5500) and one loser
(P&L −1155) in the sweep engine. -/
def c8Sigs : List SLOpt.SLSignal :=
  [{ date := 0, action := .buy, price := 100 }, { date := 1, action := .sell, price := 110 },
   { date := 2, action := .buy, price := 100 }, { date := 3, action := .sell, price := 105 },
   { date := 4, action := .buy, price := 100 }, { date := 5, action := .sell, price := 99 }]

/-- Price path for the sweep-engine stop-loss timing counterexample: the
stop level 95 is breached on bar 1, the only SELL signal comes on bar 3. -/
def c4SlBars : List Bar :=
  [{ date := 0, openPrice := 100, high := 100, low := 100, close := 100, volume := 1 },
   { date := 1, openPrice := 80, high := 80, low := 80, close := 80, volume := 1 },
   { date := 2, openPrice := 85, high := 85, low := 85, close := 85, volume := 1 },
   { date := 3, openPrice := 90, high := 90, low := 90, close := 90, volume := 1 }]

/-- BUY on bar 0, SELL on bar 3 at 90 (below the 5% stop level 95). -/
def c4SlSigs : List SLOpt.SLSignal :=
  [{ date := 0, action := .buy, price := 100 }, { date := 3, action := .sell, price := 90 }]

/-- Thirty-one flat bars, then five bars 6% lower: the drop classifies the
window as Markdown (a SELL signal) while neither the 8% stop, the 15%
take-profit, the 60-day duration limit nor an opposing phase is hit. -/
def dropBars94 : List Bar :=
  flatBarsN 31 ++ (List.range 5).map (fun j =>
    { date := (31 + j : ℕ), openPrice := 94, high := 94, low := 94, close := 94, volume := 1000 })

/-- The position the flat prefix of `dropBars94` opens on bar 30. -/
def c1ExPos : Wyckoff.Position :=
  { entry_date := 30, entry_price := 100, shares := 950, action := .buy,
    entry_phase := .markup, entry_reasoning := "Strong uptrend with volume confirmation" }

/-- C1 (amended): in `_should_exit_position` the exit triggers are
evaluated in the fixed order duration → stop-loss → take-profit →
opposing phase, the first satisfied trigger deciding the exit on that bar;
there is no fifth trigger for an explicit opposite signal action. -/
theorem c1_exit_trigger_precedence (p : Wyckoff.Position) (cl : ℚ) (s : Wyckoff.Signal) :
    ((Wyckoff.should_exit_position p cl s) = (Wyckoff.first_exit_trigger p cl s).isSome) ∧
    (Wyckoff.first_exit_trigger p cl s = some .duration ↔ Wyckoff.duration_hit p s) ∧
    (Wyckoff.first_exit_trigger p cl s = some .stopLoss ↔
      (¬Wyckoff.duration_hit p s ∧ Wyckoff.stop_loss_hit p cl)) ∧
    (Wyckoff.first_exit_trigger p cl s = some .takeProfit ↔
      (¬Wyckoff.duration_hit p s ∧ ¬Wyckoff.stop_loss_hit p cl ∧
       Wyckoff.take_profit_hit p cl)) ∧
    (Wyckoff.first_exit_trigger p cl s = some .opposingPhase ↔
      (¬Wyckoff.duration_hit p s ∧ ¬Wyckoff.stop_loss_hit p cl ∧
       ¬Wyckoff.take_profit_hit p cl ∧ Wyckoff.opposing_phase_hit p s)) := by
  cases hact : p.action <;>
    simp only [Wyckoff.should_exit_position, Wyckoff.first_exit_trigger,
      Wyckoff.duration_hit, Wyckoff.stop_loss_hit, Wyckoff.take_profit_hit,
      Wyckoff.opposing_phase_hit, hact, if_true, if_false, reduceCtorEq,
      reduceIte] <;>
    split_ifs <;> simp_all

/-- Witness for `c1_exit_trigger_precedence` at a concrete state. -/
theorem c1_exit_trigger_precedence_witness :
    (Wyckoff.should_exit_position c1ExPos 100 (Wyckoff.generate_signal dropBars94 31)) =
      (Wyckoff.first_exit_trigger c1ExPos 100 (Wyckoff.generate_signal dropBars94 31)).isSome :=
  (c1_exit_trigger_precedence c1ExPos 100 (Wyckoff.generate_signal dropBars94 31)).1

set_option maxRecDepth 8000 in
/-- Counterexample to C1 as stated: on bar 31 of `dropBars94` the open
long position coexists with an explicit opposite (SELL) signal — the
specification's trigger (5) — yet `_should_exit_position` does not close
it; the trade survives until the end-of-period force close on bar 35. -/
theorem c1_opposite_signal_not_a_trigger :
    (Wyckoff.state_at 100000 dropBars94 1).position = some c1ExPos ∧
    (Wyckoff.generate_signal dropBars94 31).action = Wyckoff.Action.sell ∧
    Wyckoff.opposite_action c1ExPos (Wyckoff.generate_signal dropBars94 31) ∧
    Wyckoff.should_exit_position c1ExPos (close_at dropBars94 31)
      (Wyckoff.generate_signal dropBars94 31) = false ∧
    (Wyckoff.run_backtest 100000 dropBars94).map
        (fun r => r.trades.map (fun t => (t.entry_date, t.exit_date, t.exit_reasoning))) =
      some [(30, 35, "End of backtest period")] := by
  refine ⟨by with_unfolding_all rfl, by with_unfolding_all rfl,
    by with_unfolding_all decide, by with_unfolding_all rfl, by with_unfolding_all rfl⟩

set_option maxRecDepth 8000 in
/-- Counterexample to C6 as stated: on the perfectly flat 100-bar series
the phase classifier's fallback labels every scanned window Markup (the
source enum has no Unclassified member), every scanned bar emits an
actionable BUY signal (70 of them), and the simulator produces 2 trades —
not zero. -/
theorem c6_flat_series_trades_and_signals :
    (Wyckoff.run_backtest 100000 flatBars).map
        (fun r => (r.trades.length, (r.signals.filter (fun s => s.action ≠ Wyckoff.Action.hold)).length,
                   (r.signals.filter (fun s => s.phase = Wyckoff.Phase.markup)).length)) =
      some (2, 70, 70) := by
  with_unfolding_all rfl

set_option maxRecDepth 8000 in
/-- C6 (amended): on the perfectly flat 100-bar series every scanned
window is classified with the fallback phase Markup at confidence 0.6,
every scanned bar emits a BUY signal, the simulator opens a position at
bar 30, recycles it at the 60-day duration limit on bar 90 and force
closes at bar 99 — two trades, both with zero P&L — and the equity curve
is constant at the initial capital. -/
theorem c6_flat_series_run :
    (Wyckoff.run_backtest 100000 flatBars).map
        (fun r =>
          (r.signals.map (fun s => (s.phase, s.action, s.confidence)),
           r.trades.map (fun t => (t.entry_date, t.exit_date, t.pnl)),
           r.equity.map Prod.snd)) =
      some (List.replicate 70 (Wyckoff.Phase.markup, Wyckoff.Action.buy, 6/10),
            [(30, 90, 0), (90, 99, 0)],
            List.replicate 70 100000) := by
  with_unfolding_all rfl

/-- Truncation agrees with the floor on nonnegative arguments. -/
theorem truncQ_of_nonneg {q : ℚ} (h : 0 ≤ q) : truncQ q = ⌊q⌋ := if_pos h

/-- Truncation of a negative value is nonpositive. -/
theorem truncQ_nonpos_of_neg {q : ℚ} (h : q < 0) : truncQ q ≤ 0 := by
  rw [truncQ, if_neg (not_le.2 h)]
  exact Int.ceil_le.2 (by exact_mod_cast h.le)

/-- Truncation is nonpositive exactly when the floor is. -/
theorem truncQ_nonpos_iff_floor_nonpos (q : ℚ) : truncQ q ≤ 0 ↔ ⌊q⌋ ≤ 0 := by
  rcases le_or_lt 0 q with h | h
  · rw [truncQ_of_nonneg h]
  · constructor
    · intro _
      exact le_trans (Int.floor_le_floor h.le) (by simp)
    · intro _
      exact truncQ_nonpos_of_neg h

/-- A fold-sum of nonnegative rationals is at least the seed. -/
theorem foldl_add_nonneg (l : List ℚ) :
    ∀ a : ℚ, 0 ≤ a → (∀ x ∈ l, 0 ≤ x) → 0 ≤ l.foldl (· + ·) a := by
  induction l with
  | nil => intro a ha _; exact ha
  | cons x xs ih =>
    intro a ha hx
    exact ih (a + x) (add_nonneg ha (hx x (by simp))) (fun y hy => hx y (by simp [hy]))

/-- `qsum` of a list of nonnegative rationals is nonnegative. -/
theorem qsum_nonneg {l : List ℚ} (h : ∀ x ∈ l, 0 ≤ x) : 0 ≤ qsum l :=
  foldl_add_nonneg l 0 le_rfl h

/-- Gross profit is always nonnegative. -/
theorem gross_profit_nonneg (trades : List Wyckoff.Trade) :
    0 ≤ Wyckoff.gross_profit trades := by
  refine qsum_nonneg (fun x hx => ?_)
  obtain ⟨t, ht, rfl⟩ := List.mem_map.1 hx
  exact (of_decide_eq_true (List.mem_filter.1 ht).2).le

/-- With no winning trade the gross profit is zero. -/
theorem gross_profit_eq_zero_of_no_winner {trades : List Wyckoff.Trade}
    (h : ∀ t ∈ trades, ¬(0 < t.pnl)) : Wyckoff.gross_profit trades = 0 := by
  unfold Wyckoff.gross_profit
  have : trades.filter (fun t => 0 < t.pnl) = [] := by
    refine List.filter_eq_nil_iff.2 (fun t ht => ?_)
    simpa using h t ht
  rw [this]
  rfl

/-- C5 (amended): in the phase-based simulator an actionable signal while
flat buys `floor(capital × 0.95 ÷ price)` shares, aborting the entry (and
creating nothing) when that floor is ≤ 0, and otherwise records entry
date, price and share count; the parameter-sweep simulator instead buys
the fractional amount `capital ÷ price` with no flooring and no abort. -/
theorem c5_entry_sizing :
    (∀ (capital : ℚ) (s : Wyckoff.Signal), s.action ≠ Wyckoff.Action.hold →
      ((Wyckoff.enter_position capital s = none ↔
          ⌊capital * Wyckoff.position_size_percent / s.price⌋ ≤ 0) ∧
       (∀ p, Wyckoff.enter_position capital s = some p →
          p.shares = ⌊capital * Wyckoff.position_size_percent / s.price⌋ ∧
          0 < p.shares ∧ p.entry_date = s.date ∧ p.entry_price = s.price))) ∧
    (∀ (sl : ℚ) (st : SLOpt.SLState) (s : SLOpt.SLSignal),
      s.action = Wyckoff.Action.buy → st.position = none →
      (SLOpt.sl_step sl st s).position =
        some { shares := st.capital / s.price, entry_price := s.price,
               entry_date := s.date, entry_capital := st.capital }) := by
  constructor
  · intro capital s hs
    set q := capital * Wyckoff.position_size_percent / s.price with hq
    constructor
    · rw [Wyckoff.enter_position, if_neg hs]
      rcases le_or_lt (truncQ q) 0 with h | h
      · simp [if_pos h, (truncQ_nonpos_iff_floor_nonpos q).1 h]
      · rw [if_neg (not_le.2 h)]
        simp only [reduceCtorEq, false_iff, not_le]
        have hq0 : 0 ≤ q := by
          by_contra hneg
          exact absurd (truncQ_nonpos_of_neg (not_le.1 hneg)) (not_le.2 h)
        rw [← truncQ_of_nonneg hq0]
        exact h
    · intro p hp
      rw [Wyckoff.enter_position, if_neg hs] at hp
      by_cases h : truncQ q ≤ 0
      · rw [if_pos h] at hp; cases hp
      · rw [if_neg h] at hp
        have h0 : 0 < truncQ q := lt_of_not_le h
        have hq0 : 0 ≤ q := by
          by_contra hneg
          exact absurd (truncQ_nonpos_of_neg (not_le.1 hneg)) h
        cases hp
        refine ⟨truncQ_of_nonneg hq0, ?_, rfl, rfl⟩
        simpa [truncQ_of_nonneg hq0] using h0
  · intro sl st s hs hpos
    rw [SLOpt.sl_step, if_pos ⟨hs, hpos⟩]

set_option maxRecDepth 8000 in
/-- Witness for `c5_entry_sizing`: a concrete entry in each engine. -/
theorem c5_entry_sizing_witness :
    Wyckoff.enter_position 100000 (Wyckoff.generate_signal flatBars 30) =
      some { entry_date := 30, entry_price := 100, shares := 950, action := .buy,
             entry_phase := .markup,
             entry_reasoning := "Strong uptrend with volume confirmation" } ∧
    ((Wyckoff.enter_position 100000 (Wyckoff.generate_signal flatBars 30)).map
        (fun p => p.shares)) =
      some ⌊(100000 : ℚ) * Wyckoff.position_size_percent /
            (Wyckoff.generate_signal flatBars 30).price⌋ ∧
    (SLOpt.sl_step (5/100)
        { capital := 100000, position := none, trades := [], equity := [100000] }
        { date := 0, action := .buy, price := 3 }).position =
      some { shares := 100000/3, entry_price := 3, entry_date := 0, entry_capital := 100000 } := by
  have hsome : Wyckoff.enter_position 100000 (Wyckoff.generate_signal flatBars 30) =
      some { entry_date := 30, entry_price := 100, shares := 950, action := .buy,
             entry_phase := .markup,
             entry_reasoning := "Strong uptrend with volume confirmation" } := by
    with_unfolding_all rfl
  have h1 := c5_entry_sizing.1 100000 (Wyckoff.generate_signal flatBars 30)
    (by with_unfolding_all decide)
  refine ⟨hsome, ?_, c5_entry_sizing.2 (5/100) _ _ rfl rfl⟩
  rw [hsome, Option.map_some']
  exact congrArg some (h1.2 _ hsome).1

set_option maxRecDepth 8000 in
/-- Counterexample to C5 as stated: the sweep engine's only trade for
`slSig1` carries the fractional share count 100000/3, which is not the
floored value the claim prescribes. -/
theorem c5_fractional_shares :
    (SLOpt.backtest_with_stop_loss 100000 slBars2 slSig1 (5/100) 0 1).map
        (fun r => r.trades.map (fun t => t.shares)) = some [100000/3] ∧
    (100000/3 : ℚ) ≠ ((⌊(100000 : ℚ) * 1 / 3⌋ : ℤ) : ℚ) := by
  refine ⟨by with_unfolding_all rfl, by with_unfolding_all decide⟩

/-- C4 (amended): in the phase-based simulator a long position whose
bar close breaches the fixed-percentage stop level is exited on that same
bar, but the recorded exit reasoning is the current signal's reasoning
text, not "stop-loss"; in the parameter-sweep simulator a stop-loss never
closes a position by itself — a SELL-signal exit is price-clipped at
`entry × (1 − sl)` and tagged "Stop Loss" exactly when the signal price is
at or below that level. -/
theorem c4_stop_loss_exit_behaviour :
    (∀ (p : Wyckoff.Position) (cl : ℚ) (s : Wyckoff.Signal),
      p.action = Wyckoff.Action.buy →
      cl ≤ p.entry_price * (1 - Wyckoff.stop_loss_percent) →
      Wyckoff.should_exit_position p cl s = true ∧
      (Wyckoff.close_position p cl s).exit_reasoning = s.reasoning ∧
      (Wyckoff.close_position p cl s).exit_date = s.date) ∧
    (∀ (sl : ℚ) (st : SLOpt.SLState) (s : SLOpt.SLSignal) (p : SLOpt.SLPosition),
      st.position = some p → s.action = Wyckoff.Action.sell →
      ∃ t, (SLOpt.sl_step sl st s).trades = st.trades ++ [t] ∧
        t.exit_date = s.date ∧ t.entry_price = p.entry_price ∧
        t.exit_price = max (p.entry_price * (1 - sl)) s.price ∧
        (t.exit_reason = "Stop Loss" ↔ s.price ≤ p.entry_price * (1 - sl))) := by
  constructor
  · intro p cl s hbuy hstop
    refine ⟨?_, rfl, rfl⟩
    rw [Wyckoff.should_exit_position]
    split_ifs with h1 h2 <;> simp_all
  · intro sl st s p hpos hsell
    by_cases h : s.price ≤ p.entry_price * (1 - sl)
    · refine ⟨{ entry_date := p.entry_date, exit_date := s.date,
                entry_price := p.entry_price,
                exit_price := p.entry_price * (1 - sl),
                shares := p.shares,
                pnl := (p.entry_price * (1 - sl) - p.entry_price) * p.shares,
                pnl_percent := (p.entry_price * (1 - sl) - p.entry_price) / p.entry_price * 100,
                exit_reason := "Stop Loss" }, ?_, rfl, rfl, (max_eq_left h).symm, by simp [h]⟩
      simp [SLOpt.sl_step, hpos, hsell, h]
    · refine ⟨{ entry_date := p.entry_date, exit_date := s.date,
                entry_price := p.entry_price,
                exit_price := s.price,
                shares := p.shares,
                pnl := (s.price - p.entry_price) * p.shares,
                pnl_percent := (s.price - p.entry_price) / p.entry_price * 100,
                exit_reason := "Signal" }, ?_, rfl, rfl,
              (max_eq_right (le_of_not_le h)).symm, ?_⟩
      · simp [SLOpt.sl_step, hpos, hsell, h]
      · constructor
        · intro hcon
          have hne2 : ("Signal" : String) ≠ "Stop Loss" := by decide
          exact absurd hcon hne2
        · intro hcon; exact absurd hcon h

/-- A concrete open sweep-engine position used by witnesses. -/
def c4WPos : SLOpt.SLPosition :=
  { shares := 1000, entry_price := 100, entry_date := 0, entry_capital := 100000 }

/-- A concrete sweep-engine state holding `c4WPos`. -/
def c4WState : SLOpt.SLState :=
  { capital := 100000, position := some c4WPos, trades := [], equity := [100000] }

/-- A concrete SELL signal below the 5% stop level of `c4WPos`. -/
def c4WSig : SLOpt.SLSignal := { date := 3, action := .sell, price := 90 }

set_option maxRecDepth 8000 in
/-- Witness for `c4_stop_loss_exit_behaviour` at concrete states. -/
theorem c4_stop_loss_exit_behaviour_witness :
    (Wyckoff.should_exit_position c1ExPos 80 (Wyckoff.generate_signal dropBars 31) = true ∧
     (Wyckoff.close_position c1ExPos 80 (Wyckoff.generate_signal dropBars 31)).exit_reasoning =
       (Wyckoff.generate_signal dropBars 31).reasoning ∧
     (Wyckoff.close_position c1ExPos 80 (Wyckoff.generate_signal dropBars 31)).exit_date =
       (Wyckoff.generate_signal dropBars 31).date) ∧
    (∃ t, (SLOpt.sl_step (5/100) c4WState c4WSig).trades = c4WState.trades ++ [t] ∧
      t.exit_date = c4WSig.date ∧ t.entry_price = c4WPos.entry_price ∧
      t.exit_price = max (c4WPos.entry_price * (1 - 5/100)) c4WSig.price ∧
      (t.exit_reason = "Stop Loss" ↔ c4WSig.price ≤ c4WPos.entry_price * (1 - 5/100))) :=
  ⟨c4_stop_loss_exit_behaviour.1 c1ExPos 80 (Wyckoff.generate_signal dropBars 31) rfl
      (by with_unfolding_all decide),
   c4_stop_loss_exit_behaviour.2 (5/100) c4WState c4WSig c4WPos rfl rfl⟩

set_option maxRecDepth 8000 in
/-- Counterexample to C4 as stated: in the phase-based engine the trade
closed on the breach bar 31 of `dropBars` records the signal's reasoning
text, not "stop-loss"; in the sweep engine the stop level 95 is breached
on bar 1 but the trade closes only at the SELL signal on bar 3 (with
clipped price 95 and tag "Stop Loss"). -/
theorem c4_stop_loss_reason_and_timing :
    (Wyckoff.state_at 100000 dropBars 1).position = some c1ExPos ∧
    Wyckoff.stop_loss_hit c1ExPos (close_at dropBars 31) ∧
    (Wyckoff.run_backtest 100000 dropBars).map
        (fun r => r.trades.map (fun t => (t.entry_date, t.exit_date, t.exit_reasoning))) =
      some [(30, 31, "Downtrend phase - avoid long positions"),
            (31, 31, "End of backtest period")] ∧
    ("Downtrend phase - avoid long positions" ≠ "stop-loss") ∧
    (SLOpt.backtest_with_stop_loss 100000 c4SlBars c4SlSigs (5/100) 0 3).map
        (fun r => r.trades.map (fun t => (t.entry_date, t.exit_date, t.exit_price, t.exit_reason))) =
      some [(0, 3, 95, "Stop Loss")] ∧
    (close_at c4SlBars 1 < 100 * (1 - 5/100)) := by
  refine ⟨by with_unfolding_all rfl, by with_unfolding_all decide, by with_unfolding_all rfl,
    by decide, by with_unfolding_all rfl, by with_unfolding_all decide⟩

/-- C8 (amended): in the phase-based engine the reported profit factor is
`gross_profit ÷ |gross_loss|`, unbounded exactly when there are trades,
no gross loss and positive gross profit, exactly 0 whenever there are no
winning trades, and never negative; in the parameter-sweep engine it is
`|avg_win ÷ avg_loss|` instead, unbounded whenever there are trades but no
losing trade — even with zero winners — and never negative. -/
theorem c8_profit_factor_policies :
    (∀ trades : List Wyckoff.Trade,
      (0 < Wyckoff.gross_loss trades →
        Wyckoff.profit_factor_of trades =
          .val (Wyckoff.gross_profit trades / Wyckoff.gross_loss trades)) ∧
      (Wyckoff.profit_factor_of trades = .inf ↔
        (trades ≠ [] ∧ Wyckoff.gross_loss trades = 0 ∧ 0 < Wyckoff.gross_profit trades)) ∧
      ((∀ t ∈ trades, ¬(0 < t.pnl)) → Wyckoff.profit_factor_of trades = .val 0) ∧
      (∀ q, Wyckoff.profit_factor_of trades = .val q → 0 ≤ q)) ∧
    (∀ trades : List SLOpt.SLTrade,
      (trades ≠ [] → SLOpt.sl_avg_loss trades = 0 → SLOpt.sl_profit_factor trades = .inf) ∧
      (∀ q, SLOpt.sl_profit_factor trades = .val q → 0 ≤ q)) := by
  constructor
  · intro trades
    have hgl : 0 ≤ Wyckoff.gross_loss trades := abs_nonneg _
    refine ⟨?_, ?_, ?_, ?_⟩
    · intro h
      rw [Wyckoff.profit_factor_of]
      have hne : trades ≠ [] := by
        rintro rfl
        rw [show Wyckoff.gross_loss [] = 0 from rfl] at h
        exact lt_irrefl 0 h
      rw [if_neg hne, if_pos h]
    · rw [Wyckoff.profit_factor_of]
      by_cases h1 : trades = []
      · rw [if_pos h1]
        simp [h1]
      · rw [if_neg h1]
        by_cases h2 : 0 < Wyckoff.gross_loss trades
        · rw [if_pos h2]
          constructor
          · intro hcon; exact PFValue.noConfusion hcon
          · rintro ⟨-, hgl0, -⟩
            rw [hgl0] at h2
            exact absurd h2 (lt_irrefl 0)
        · rw [if_neg h2]
          by_cases h3 : 0 < Wyckoff.gross_profit trades
          · rw [if_pos h3]
            exact iff_of_true rfl ⟨h1, le_antisymm (not_lt.1 h2) hgl, h3⟩
          · rw [if_neg h3]
            constructor
            · intro hcon; exact PFValue.noConfusion hcon
            · rintro ⟨-, -, hgp⟩; exact absurd hgp h3
    · intro h
      have hgp := gross_profit_eq_zero_of_no_winner h
      rw [Wyckoff.profit_factor_of]
      by_cases h1 : trades = []
      · rw [if_pos h1]
      · rw [if_neg h1]
        by_cases h2 : 0 < Wyckoff.gross_loss trades
        · rw [if_pos h2, hgp, zero_div]
        · rw [if_neg h2, if_neg (by rw [hgp]; exact lt_irrefl 0)]
    · intro q hq
      rw [Wyckoff.profit_factor_of] at hq
      by_cases h1 : trades = []
      · rw [if_pos h1] at hq
        injection hq with h
        rw [← h]
      · rw [if_neg h1] at hq
        by_cases h2 : 0 < Wyckoff.gross_loss trades
        · rw [if_pos h2] at hq
          injection hq with h
          rw [← h]
          exact div_nonneg (gross_profit_nonneg trades) h2.le
        · rw [if_neg h2] at hq
          by_cases h3 : 0 < Wyckoff.gross_profit trades
          · rw [if_pos h3] at hq
            exact PFValue.noConfusion hq
          · rw [if_neg h3] at hq
            injection hq with h
            rw [← h]
  · intro trades
    constructor
    · intro hne hz
      rw [SLOpt.sl_profit_factor, if_neg hne, if_neg (not_not_intro hz)]
    · intro q hq
      rw [SLOpt.sl_profit_factor] at hq
      by_cases h1 : trades = []
      · rw [if_pos h1] at hq
        injection hq with h
        rw [← h]
      · rw [if_neg h1] at hq
        by_cases h2 : SLOpt.sl_avg_loss trades ≠ 0
        · rw [if_pos h2] at hq
          injection hq with h
          rw [← h]
          exact abs_nonneg _
        · rw [if_neg h2] at hq
          exact PFValue.noConfusion hq

/-- A concrete winning phase-engine trade for the C8 witness. -/
def c8WTrade : Wyckoff.Trade :=
  { entry_date := 0, exit_date := 1, entry_price := 100, exit_price := 110,
    action := .buy, shares := 10, entry_phase := .markup, exit_phase := .markup,
    pnl := 100, pnl_percent := 10, duration_days := 1,
    entry_reasoning := "", exit_reasoning := "" }

/-- A concrete losing phase-engine trade for the C8 witness. -/
def c8LTrade : Wyckoff.Trade :=
  { entry_date := 2, exit_date := 3, entry_price := 100, exit_price := 95,
    action := .buy, shares := 10, entry_phase := .markup, exit_phase := .markup,
    pnl := -50, pnl_percent := -5, duration_days := 1,
    entry_reasoning := "", exit_reasoning := "" }

/-- A concrete breakeven sweep-engine trade for the C8 witness. -/
def c8ZTrade : SLOpt.SLTrade :=
  { entry_date := 0, exit_date := 1, entry_price := 100, exit_price := 100,
    shares := 10, pnl := 0, pnl_percent := 0, exit_reason := "Signal" }

/-- Witness for `c8_profit_factor_policies`: the gross ratio on a concrete
two-trade list, and the unbounded flag on a concrete all-breakeven sweep
list (zero winners, zero losers). -/
theorem c8_profit_factor_policies_witness :
    Wyckoff.profit_factor_of [c8WTrade, c8LTrade] =
      .val (Wyckoff.gross_profit [c8WTrade, c8LTrade] /
            Wyckoff.gross_loss [c8WTrade, c8LTrade]) ∧
    SLOpt.sl_profit_factor [c8ZTrade] = .inf :=
  ⟨(c8_profit_factor_policies.1 [c8WTrade, c8LTrade]).1 (by with_unfolding_all decide),
   (c8_profit_factor_policies.2 [c8ZTrade]).1 (by decide) (by with_unfolding_all decide)⟩

set_option maxRecDepth 8000 in
/-- Counterexample to C8 as stated: the sweep engine's profit factor on
the `c8Sigs` run (wins 10000 and 5500, loss −1155) is
`|avg_win ÷ avg_loss| = 1550/231`, not the claimed
`gross_profit ÷ |gross_loss| = 3100/231`. -/
theorem c8_profit_factor_not_gross_ratio :
    (SLOpt.backtest_with_stop_loss 100000 slBars2 c8Sigs (5/100) 0 1).map
        (fun r => (r.trades.map (fun t => t.pnl), SLOpt.sl_profit_factor r.trades)) =
      some ([10000, 5500, -1155], .val (1550/231)) ∧
    (1550/231 : ℚ) ≠ (10000 + 5500) / |(-1155 : ℚ)| := by
  refine ⟨by with_unfolding_all rfl, by with_unfolding_all decide⟩

/-- C9 (amended): only the moving-average engine enforces a minimum
lookback: on fewer than 50 bars `run_analysis` raises (producing no result
and hence zero trades); the phase-based engine performs no such check and
completes on any series of at least 31 bars even though its 50-period SMA
is undefined on the early bars. -/
theorem c9_insufficient_data_check :
    (∀ (cap0 : ℚ) (bars : List Bar), bars.length < EMA.ema_50_period →
      EMA.run_analysis cap0 bars =
        .error "Not enough data for EMA analysis. Need at least 50 days") ∧
    (∀ (cap0 : ℚ) (bars : List Bar), Wyckoff.scan_start + 1 ≤ bars.length →
      (Wyckoff.run_backtest cap0 bars).isSome) := by
  constructor
  · intro cap0 bars h
    rw [EMA.run_analysis, if_pos h]
  · intro cap0 bars h
    rw [Wyckoff.run_backtest, if_neg (not_lt.2 h)]
    exact Option.isSome_some

set_option maxRecDepth 8000 in
/-- Witness for `c9_insufficient_data_check`: the 49-bar scenario of the
specification raises in the moving-average engine, and a 40-bar series
completes in the phase-based engine. -/
theorem c9_insufficient_data_check_witness :
    EMA.run_analysis 100000 (flatBarsN 49) =
      .error "Not enough data for EMA analysis. Need at least 50 days" ∧
    (Wyckoff.run_backtest 100000 (flatBarsN 40)).isSome :=
  ⟨c9_insufficient_data_check.1 100000 (flatBarsN 49) (by with_unfolding_all decide),
   c9_insufficient_data_check.2 100000 (flatBarsN 40) (by with_unfolding_all decide)⟩

set_option maxRecDepth 8000 in
/-- Counterexample to C9 as stated: the phase-based simulator — whose
longest prepared indicator is the 50-period SMA — runs a 40-bar series to
completion (returning a result, with trades even), instead of failing with
an insufficient-data error. -/
theorem c9_short_series_completes :
    (Wyckoff.run_backtest 100000 (flatBarsN 40)).map
        (fun r => (r.trades.map (fun t => (t.entry_date, t.exit_date)), r.equity.length)) =
      some ([(30, 39)], 10) ∧
    (flatBarsN 40).length < 50 := by
  refine ⟨by with_unfolding_all rfl, by decide⟩

/-- The last element with default equals the element at index `length - 1`. -/
theorem getLastD_eq_getD {α : Type} : ∀ (l : List α) (d : α), l ≠ [] →
    l.getLastD d = l.getD (l.length - 1) d := by
  intro l
  induction l with
  | nil => intro d h; exact absurd rfl h
  | cons x xs ih =>
    intro d _
    rw [List.getLastD_cons]
    cases xs with
    | nil => rfl
    | cons y ys =>
      rw [ih x (by simp)]
      have h1 : (y :: ys).length - 1 < (y :: ys).length := by simp
      have h2 : (x :: y :: ys).length - 1 < (x :: y :: ys).length := by simp
      rw [List.getD_eq_get _ _ h1, List.getD_eq_get _ _ h2]
      simp [List.get_cons_succ]

/-- Monotonicity of `date_at` on a date-sorted bar list. -/
theorem date_at_mono {bars : List Bar} (hs : List.Sorted (· ≤ ·) (bars.map Bar.date))
    {i j : ℕ} (hij : i ≤ j) (hj : j < bars.length) : date_at bars i ≤ date_at bars j := by
  rcases eq_or_lt_of_le hij with rfl | hlt
  · exact le_rfl
  · have hi : i < bars.length := lt_trans hlt hj
    have hmap : (bars.map Bar.date).length = bars.length := List.length_map _ _
    have h := List.Sorted.rel_get_of_lt hs
      (a := ⟨i, by rw [hmap]; exact hi⟩) (b := ⟨j, by rw [hmap]; exact hj⟩) (by simpa using hlt)
    rw [date_at, date_at, List.getD_eq_get _ _ hi, List.getD_eq_get _ _ hj]
    simpa using h

/-- Every member of a date-sorted bar list dates at most the final bar. -/
theorem date_le_last {bars : List Bar} (hs : List.Sorted (· ≤ ·) (bars.map Bar.date))
    {b : Bar} (hb : b ∈ bars) : b.date ≤ date_at bars (bars.length - 1) := by
  obtain ⟨i, hi⟩ := List.mem_iff_get.1 hb
  have : b.date = date_at bars i := by
    rw [date_at, List.getD_eq_get _ _ i.isLt, hi]
  rw [this]
  exact date_at_mono hs (Nat.le_sub_one_of_lt i.isLt) (by
    have : 0 < bars.length := List.length_pos.2 (by rintro rfl; cases hb)
    omega)

/-- Appending a later interval preserves `intervals_ok`. -/
theorem intervals_ok_append {l : List (ℤ × ℤ)} {x : ℤ × ℤ}
    (h : intervals_ok l) (hx : x.1 ≤ x.2) (hall : ∀ p ∈ l, p.2 ≤ x.1) :
    intervals_ok (l ++ [x]) := by
  constructor
  · intro p hp
    rcases List.mem_append.1 hp with hp | hp
    · exact h.1 p hp
    · simp at hp; subst hp; exact hx
  · rw [List.pairwise_append]
    refine ⟨h.2, by simp, ?_⟩
    intro a ha b hb
    simp at hb
    subst hb
    exact hall a ha

/-- The signal generated at index `i` carries that bar's date. -/
theorem generate_signal_date (bars : List Bar) (i : ℕ) :
    (Wyckoff.generate_signal bars i).date = date_at bars i := rfl

/-- An accepted entry records the signal's date. -/
theorem enter_position_date {cap : ℚ} {s : Wyckoff.Signal} {p : Wyckoff.Position}
    (h : Wyckoff.enter_position cap s = some p) : p.entry_date = s.date := by
  simp only [Wyckoff.enter_position] at h
  split_ifs at h
  cases h
  rfl

/-- Interval endpoints of a closed trade. -/
theorem close_position_dates (p : Wyckoff.Position) (cl : ℚ) (s : Wyckoff.Signal) :
    (Wyckoff.close_position p cl s).entry_date = p.entry_date ∧
    (Wyckoff.close_position p cl s).exit_date = s.date := ⟨rfl, rfl⟩

/-- Interval list of a trade list. -/
def trade_pairs (trades : List Wyckoff.Trade) : List (ℤ × ℤ) :=
  trades.map (fun t => (t.entry_date, t.exit_date))

/-- Invariant of the `run_backtest` scan loop, relative to the indices
still to be scanned. -/
def ScanInv (bars : List Bar) (idxs : List ℕ) (st : Wyckoff.EngineState) : Prop :=
  intervals_ok (trade_pairs st.trades) ∧
  (∀ p, st.position = some p →
    (∀ t ∈ st.trades, t.exit_date ≤ p.entry_date) ∧
    (∀ j ∈ idxs, p.entry_date ≤ date_at bars j) ∧
    (bars ≠ [] → p.entry_date ≤ date_at bars (bars.length - 1))) ∧
  (∀ t ∈ st.trades, ∀ j ∈ idxs, t.exit_date ≤ date_at bars j)

/-- Equity, after the two trading stages, is untouched. -/
theorem stages_equity (bars : List Bar) (st : Wyckoff.EngineState) (i : ℕ) :
    (Wyckoff.entry_stage bars (Wyckoff.exit_stage bars st i) i).equity = st.equity := by
  cases h : st.position with
  | none =>
    simp only [Wyckoff.exit_stage, Wyckoff.entry_stage, h]
    split_ifs with h1
    · split <;> rfl
    · rfl
  | some p =>
    simp only [Wyckoff.exit_stage, h]
    split_ifs with hex
    · simp only [Wyckoff.entry_stage]
      split_ifs with h1
      · split <;> rfl
      · rfl
    · simp only [Wyckoff.entry_stage, h]

/-- The equity point appended by one scan step. -/
theorem scan_step_equity (bars : List Bar) (st : Wyckoff.EngineState) (i : ℕ) :
    (Wyckoff.scan_step bars st i).equity =
      st.equity ++ [(date_at bars i,
        Wyckoff.portfolio_value (Wyckoff.scan_step bars st i).position
          (Wyckoff.scan_step bars st i).capital (close_at bars i))] := by
  rw [Wyckoff.scan_step]
  have h := stages_equity bars { st with signals := st.signals ++ [Wyckoff.generate_signal bars i] } i
  simp only [h]
  rfl

/-- Case analysis of the exit stage: either nothing changes, or the open
position is closed into a trade ending at this bar's date. -/
theorem exit_stage_spec (bars : List Bar) (st : Wyckoff.EngineState) (i : ℕ) :
    ((Wyckoff.exit_stage bars st i).position = st.position ∧
     (Wyckoff.exit_stage bars st i).trades = st.trades) ∨
    (∃ p, st.position = some p ∧
      (Wyckoff.exit_stage bars st i).position = none ∧
      (Wyckoff.exit_stage bars st i).trades =
        st.trades ++ [Wyckoff.close_position p (close_at bars i)
          (Wyckoff.generate_signal bars i)]) := by
  cases h : st.position with
  | none => left; simp [Wyckoff.exit_stage, h]
  | some p =>
    simp only [Wyckoff.exit_stage, h]
    split_ifs with hex
    · right; exact ⟨p, by simp [h], by simp, by simp⟩
    · left; exact ⟨by simp [h], by simp⟩

/-- Case analysis of the entry stage: either nothing changes, or — while
flat — an accepted entry installs a position dated at this bar. -/
theorem entry_stage_spec (bars : List Bar) (st : Wyckoff.EngineState) (i : ℕ) :
    ((Wyckoff.entry_stage bars st i).position = st.position ∧
     (Wyckoff.entry_stage bars st i).trades = st.trades) ∨
    (st.position = none ∧
     (Wyckoff.entry_stage bars st i).trades = st.trades ∧
     ∃ p, Wyckoff.enter_position st.capital (Wyckoff.generate_signal bars i) = some p ∧
       (Wyckoff.entry_stage bars st i).position = some p) := by
  cases h : st.position with
  | some p => left; simp [Wyckoff.entry_stage, h]
  | none =>
    simp only [Wyckoff.entry_stage, h]
    split_ifs with h1
    · cases h3 : Wyckoff.enter_position st.capital (Wyckoff.generate_signal bars i) with
      | none => left; exact ⟨by simp [h], by simp⟩
      | some p => right; exact ⟨by simp, by simp, p, by simp [h3], by simp⟩
    · left; exact ⟨by simp [h], by simp⟩

/-- The scan invariant only reads positions and trades. -/
theorem ScanInv_congr {bars : List Bar} {idxs : List ℕ} {st st' : Wyckoff.EngineState}
    (hp : st'.position = st.position) (ht : st'.trades = st.trades) :
    ScanInv bars idxs st → ScanInv bars idxs st' := by
  rintro ⟨h1, h2, h3⟩
  refine ⟨?_, ?_, ?_⟩
  · rw [trade_pairs, ht, ← trade_pairs]; exact h1
  · intro p hp'
    rw [hp] at hp'
    obtain ⟨a, b, c⟩ := h2 p hp'
    exact ⟨by rw [ht]; exact a, b, c⟩
  · intro t htm
    rw [ht] at htm
    exact h3 t htm

/-- The scan invariant restricts along the future-index list. -/
theorem ScanInv_restrict {bars : List Bar} {i : ℕ} {idxs : List ℕ}
    {st : Wyckoff.EngineState} :
    ScanInv bars (i :: idxs) st → ScanInv bars idxs st := by
  rintro ⟨h1, h2, h3⟩
  refine ⟨h1, ?_, ?_⟩
  · intro p hp
    obtain ⟨a, b, c⟩ := h2 p hp
    exact ⟨a, fun j hj => b j (List.mem_cons_of_mem i hj), c⟩
  · intro t ht j hj
    exact h3 t ht j (List.mem_cons_of_mem i hj)

/-- One scan step preserves the trade-interval invariant. -/
theorem scan_step_inv (bars : List Bar)
    (hs : List.Sorted (· ≤ ·) (bars.map Bar.date)) (i : ℕ) (idxs : List ℕ)
    (hi : i < bars.length) (hfut : ∀ j ∈ idxs, i ≤ j ∧ j < bars.length)
    (st : Wyckoff.EngineState) (hinv : ScanInv bars (i :: idxs) st) :
    ScanInv bars idxs (Wyckoff.scan_step bars st i) := by
  have hbne : bars ≠ [] := by rintro rfl; simp at hi
  have hfmono : ∀ j ∈ idxs, date_at bars i ≤ date_at bars j := fun j hj =>
    date_at_mono hs (hfut j hj).1 (hfut j hj).2
  have hlasti : date_at bars i ≤ date_at bars (bars.length - 1) :=
    date_at_mono hs (by omega) (by omega)
  -- the trading stages act on the signal-extended state st0
  set st0 : Wyckoff.EngineState :=
    { st with signals := st.signals ++ [Wyckoff.generate_signal bars i] } with hst0
  have hinv0 : ScanInv bars (i :: idxs) st0 := ScanInv_congr rfl rfl hinv
  -- invariant for the state after the exit stage
  have hinv1 : ScanInv bars idxs (Wyckoff.exit_stage bars st0 i) ∧
      (∀ p, (Wyckoff.exit_stage bars st0 i).position = some p →
        p.entry_date ≤ date_at bars i) ∧
      (∀ t ∈ (Wyckoff.exit_stage bars st0 i).trades, t.exit_date ≤ date_at bars i) := by
    obtain ⟨hok, hpos, htr⟩ := hinv0
    rcases exit_stage_spec bars st0 i with ⟨hp1, ht1⟩ | ⟨p, hp, hp1, ht1⟩
    · refine ⟨ScanInv_congr hp1 ht1 (ScanInv_restrict ⟨hok, hpos, htr⟩), ?_, ?_⟩
      · intro q hq
        rw [hp1] at hq
        exact (hpos q hq).2.1 i (List.mem_cons_self i idxs)
      · intro t ht
        rw [ht1] at ht
        exact htr t ht i (List.mem_cons_self i idxs)
    · obtain ⟨hle, hfutp, hlastp⟩ := hpos p hp
      have hx : p.entry_date ≤ date_at bars i := hfutp i (List.mem_cons_self i idxs)
      refine ⟨⟨?_, ?_, ?_⟩, ?_, ?_⟩
      · rw [trade_pairs, ht1, List.map_append]
        refine intervals_ok_append hok hx ?_
        intro pr hpr
        obtain ⟨t, htm, rfl⟩ := List.mem_map.1 hpr
        exact hle t htm
      · intro q hq
        rw [hp1] at hq
        cases hq
      · intro t htm j hj
        rw [ht1] at htm
        rcases List.mem_append.1 htm with htm | htm
        · exact htr t htm j (List.mem_cons_of_mem i hj)
        · simp at htm
          subst htm
          exact hfmono j hj
      · intro q hq
        rw [hp1] at hq
        cases hq
      · intro t htm
        rw [ht1] at htm
        rcases List.mem_append.1 htm with htm | htm
        · exact htr t htm i (List.mem_cons_self i idxs)
        · simp at htm
          subst htm
          exact le_rfl
  obtain ⟨⟨hok1, hpos1, htr1⟩, hple1, htle1⟩ := hinv1
  -- the entry stage
  have hinv2 : ScanInv bars idxs
      (Wyckoff.entry_stage bars (Wyckoff.exit_stage bars st0 i) i) := by
    rcases entry_stage_spec bars (Wyckoff.exit_stage bars st0 i) i with
      ⟨hp2, ht2⟩ | ⟨hnone, ht2, p, hpent, hp2⟩
    · exact ScanInv_congr hp2 ht2 ⟨hok1, hpos1, htr1⟩
    · have hdate : p.entry_date = date_at bars i :=
        (enter_position_date hpent).trans (generate_signal_date bars i)
      refine ⟨?_, ?_, ?_⟩
      · rw [trade_pairs, ht2, ← trade_pairs]; exact hok1
      · intro q hq
        rw [hp2] at hq
        cases hq
        refine ⟨?_, ?_, ?_⟩
        · intro t htm
          rw [ht2] at htm
          rw [hdate]
          exact htle1 t htm
        · intro j hj
          rw [hdate]
          exact hfmono j hj
        · intro _
          rw [hdate]
          exact hlasti
      · intro t htm
        rw [ht2] at htm
        exact htr1 t htm
  exact ScanInv_congr rfl rfl hinv2

/-- Membership of a step-1 range. -/
theorem mem_range_one {s n m : ℕ} (h : m ∈ List.range' s n) : s ≤ m ∧ m < s + n := by
  obtain ⟨i, hi, rfl⟩ := List.mem_range'.1 h
  omega

/-- A step-1 range is weakly ascending. -/
theorem pairwise_le_range_one (s n : ℕ) : (List.range' s n).Pairwise (· ≤ ·) := by
  induction n generalizing s with
  | zero => exact List.Pairwise.nil
  | succ n ih =>
    rw [List.range'_succ]
    refine List.pairwise_cons.2 ⟨?_, ih (s + 1)⟩
    intro j hj
    exact le_of_lt (lt_of_lt_of_le (Nat.lt_succ_self s) (mem_range_one hj).1)

/-- Scanning all remaining indices preserves the invariant. -/
theorem scan_fold_inv (bars : List Bar)
    (hs : List.Sorted (· ≤ ·) (bars.map Bar.date)) :
    ∀ (idxs : List ℕ) (st : Wyckoff.EngineState),
      idxs.Pairwise (· ≤ ·) → (∀ j ∈ idxs, j < bars.length) →
      ScanInv bars idxs st →
      ScanInv bars [] (idxs.foldl (Wyckoff.scan_step bars) st) := by
  intro idxs
  induction idxs with
  | nil => intro st _ _ h; exact h
  | cons i rest ih =>
    intro st hpw hrange hinv
    rw [List.foldl_cons]
    refine ih _ hpw.of_cons (fun j hj => hrange j (List.mem_cons_of_mem i hj)) ?_
    refine scan_step_inv bars hs i rest (hrange i (List.mem_cons_self i rest)) ?_ st hinv
    intro j hj
    exact ⟨List.rel_of_pairwise_cons hpw hj, hrange j (List.mem_cons_of_mem i hj)⟩

/-- The scan invariant holds for the initial state. -/
theorem scan_inv_init (bars : List Bar) (idxs : List ℕ) (cap0 : ℚ) :
    ScanInv bars idxs (Wyckoff.init_state cap0) := by
  refine ⟨⟨?_, ?_⟩, ?_, ?_⟩
  · intro p hp; cases hp
  · exact List.Pairwise.nil
  · intro p hp; cases hp
  · intro t ht; cases ht

/-- Every completed phase-based run yields chained trade intervals. -/
theorem run_backtest_intervals (cap0 : ℚ) (bars : List Bar)
    (hs : List.Sorted (· ≤ ·) (bars.map Bar.date)) (r : Wyckoff.BacktestResults)
    (h : Wyckoff.run_backtest cap0 bars = some r) :
    intervals_ok (trade_pairs r.trades) := by
  rw [Wyckoff.run_backtest] at h
  split_ifs at h with hlen
  have hn : Wyckoff.scan_start + 1 ≤ bars.length := not_lt.1 hlen
  have hbne : bars ≠ [] := by
    rintro rfl
    simp [Wyckoff.scan_start] at hn
  have hscan : ScanInv bars []
      (Wyckoff.state_at cap0 bars (bars.length - Wyckoff.scan_start)) := by
    refine scan_fold_inv bars hs _ _ (pairwise_le_range_one _ _) ?_
      (scan_inv_init bars _ cap0)
    intro j hj
    have := mem_range_one hj
    simp [Wyckoff.scan_start] at this ⊢
    omega
  obtain ⟨hok, hpos, htr⟩ := hscan
  cases h
  cases hp : (Wyckoff.state_at cap0 bars (bars.length - Wyckoff.scan_start)).position with
  | none => simpa [hp] using hok
  | some p =>
    simp only [hp]
    obtain ⟨hle, -, hlast⟩ := hpos p hp
    rw [trade_pairs, List.map_append]
    refine intervals_ok_append hok ?_ ?_
    · show p.entry_date ≤ (bars.getLastD dummyBar).date
      rw [getLastD_eq_getD bars dummyBar hbne]
      exact hlast hbne
    · intro pr hpr
      obtain ⟨t, htm, rfl⟩ := List.mem_map.1 hpr
      exact hle t htm

/-- Interval list of an EMA trade list. -/
def ema_pairs (trades : List EMA.EMATrade) : List (ℤ × ℤ) :=
  trades.map (fun t => (t.entry_date, t.exit_date))

/-- Invariant of the `_execute_trades` loop relative to the remaining
signals. -/
def ExecInv (bars : List Bar) (sigs : List EMA.EMASignal) (st : EMA.ExecState) : Prop :=
  intervals_ok (ema_pairs st.trades) ∧
  (∀ p, st.position = some p →
    (∀ t ∈ st.trades, t.exit_date ≤ p.entry_date) ∧
    (∀ s ∈ sigs, p.entry_date ≤ s.date) ∧
    (bars ≠ [] → p.entry_date ≤ date_at bars (bars.length - 1))) ∧
  (∀ t ∈ st.trades, ∀ s ∈ sigs, t.exit_date ≤ s.date)

/-- Case analysis of one `_execute_trades` iteration. -/
theorem exec_step_spec (bars : List Bar) (st : EMA.ExecState) (s : EMA.EMASignal) :
    ((EMA.exec_step bars st s).position = st.position ∧
     (EMA.exec_step bars st s).trades = st.trades) ∨
    (st.position = none ∧ (EMA.exec_step bars st s).trades = st.trades ∧
      ∃ p, (EMA.exec_step bars st s).position = some p ∧ p.entry_date = s.date) ∨
    (∃ p, st.position = some p ∧ (EMA.exec_step bars st s).position = none ∧
      ∃ t, (EMA.exec_step bars st s).trades = st.trades ++ [t] ∧
        t.entry_date = p.entry_date ∧ t.exit_date = s.date) := by
  rw [EMA.exec_step]
  split_ifs with h1 h2
  · obtain ⟨hb, hpos⟩ := h1
    cases hidx : EMA.index_of_date bars s.date with
    | none =>
      simp only [hidx]
      exact Or.inl ⟨by trivial, by trivial⟩
    | some idx =>
      simp only [hidx]
      split_ifs with h3 h4
      · refine Or.inr (Or.inl ⟨hpos, by trivial,
          { entry_date := s.date,
            entry_price := (bars.getD (idx + 1) dummyBar).openPrice,
            shares := truncQ (st.available / (bars.getD (idx + 1) dummyBar).openPrice) },
          by trivial, by trivial⟩)
      · exact Or.inl ⟨by trivial, by trivial⟩
      · exact Or.inl ⟨by trivial, by trivial⟩
  · obtain ⟨hb, hpos⟩ := h2
    cases hp : st.position with
    | none => exact absurd hp hpos
    | some p =>
      cases hidx : EMA.index_of_date bars s.date with
      | none =>
        simp only [hp, hidx]
        exact Or.inl ⟨by trivial, by trivial⟩
      | some idx =>
        simp only [hp, hidx]
        split_ifs with h3
        · refine Or.inr (Or.inr ⟨p, by first | exact hp | rfl, by trivial,
            { entry_date := p.entry_date, exit_date := s.date,
              entry_price := p.entry_price,
              exit_price := (bars.getD (idx + 1) dummyBar).openPrice,
              shares := p.shares,
              pnl := (p.shares : ℚ) * ((bars.getD (idx + 1) dummyBar).openPrice - p.entry_price),
              pnl_percent := ((bars.getD (idx + 1) dummyBar).openPrice - p.entry_price) /
                p.entry_price * 100,
              duration_days := s.date - p.entry_date,
              exit_reason := some (EMA.ema_exit_reason s.reason) },
            by trivial, by trivial, by trivial⟩)
        · exact Or.inl ⟨by trivial, by trivial⟩
  · exact Or.inl ⟨by trivial, by trivial⟩

/-- One `_execute_trades` iteration preserves the interval invariant. -/
theorem exec_step_inv (bars : List Bar) (s : EMA.EMASignal) (sigs : List EMA.EMASignal)
    (hrest : ∀ s' ∈ sigs, s.date ≤ s'.date)
    (hlast : bars ≠ [] → s.date ≤ date_at bars (bars.length - 1))
    (st : EMA.ExecState) (hinv : ExecInv bars (s :: sigs) st) :
    ExecInv bars sigs (EMA.exec_step bars st s) := by
  obtain ⟨hok, hpos, htr⟩ := hinv
  rcases exec_step_spec bars st s with ⟨hp1, ht1⟩ | ⟨hnone, ht1, p, hp1, hdate⟩ |
    ⟨p, hp, hp1, t, ht1, hte, htx⟩
  · refine ⟨?_, ?_, ?_⟩
    · rw [ema_pairs, ht1, ← ema_pairs]; exact hok
    · intro q hq
      rw [hp1] at hq
      obtain ⟨a, b, c⟩ := hpos q hq
      exact ⟨by rw [ht1]; exact a,
             fun s' hs' => b s' (List.mem_cons_of_mem s hs'), c⟩
    · intro t htm s' hs'
      rw [ht1] at htm
      exact htr t htm s' (List.mem_cons_of_mem s hs')
  · refine ⟨?_, ?_, ?_⟩
    · rw [ema_pairs, ht1, ← ema_pairs]; exact hok
    · intro q hq
      rw [hp1] at hq
      cases hq
      rw [hdate]
      refine ⟨?_, hrest, hlast⟩
      intro t htm
      rw [ht1] at htm
      exact htr t htm s (List.mem_cons_self s sigs)
    · intro t htm s' hs'
      rw [ht1] at htm
      exact htr t htm s' (List.mem_cons_of_mem s hs')
  · obtain ⟨hle, hfutp, hlastp⟩ := hpos p hp
    refine ⟨?_, ?_, ?_⟩
    · rw [ema_pairs, ht1, List.map_append]
      refine intervals_ok_append hok ?_ ?_
      · show t.entry_date ≤ t.exit_date
        rw [hte, htx]
        exact hfutp s (List.mem_cons_self s sigs)
      · intro pr hpr
        obtain ⟨t', htm, rfl⟩ := List.mem_map.1 hpr
        show t'.exit_date ≤ t.entry_date
        rw [hte]
        exact hle t' htm
    · intro q hq
      rw [hp1] at hq
      cases hq
    · intro t' htm s' hs'
      rw [ht1] at htm
      rcases List.mem_append.1 htm with htm | htm
      · exact htr t' htm s' (List.mem_cons_of_mem s hs')
      · simp at htm
        subst htm
        rw [htx]
        exact hrest s' hs'

/-- Processing all remaining signals preserves the interval invariant. -/
theorem exec_fold_inv (bars : List Bar) :
    ∀ (sigs : List EMA.EMASignal) (st : EMA.ExecState),
      sigs.Pairwise (fun a b => a.date ≤ b.date) →
      (∀ s ∈ sigs, bars ≠ [] → s.date ≤ date_at bars (bars.length - 1)) →
      ExecInv bars sigs st →
      ExecInv bars [] (sigs.foldl (EMA.exec_step bars) st) := by
  intro sigs
  induction sigs with
  | nil => intro st _ _ h; exact h
  | cons s rest ih =>
    intro st hpw hlast hinv
    rw [List.foldl_cons]
    refine ih _ hpw.of_cons (fun s' hs' => hlast s' (List.mem_cons_of_mem s hs')) ?_
    exact exec_step_inv bars s rest (fun s' hs' => List.rel_of_pairwise_cons hpw hs')
      (hlast s (List.mem_cons_self s rest)) st hinv

/-- A signal-generation step either keeps the output or appends one
signal dated at the scanned bar. -/
theorem sig_step_out (bars : List Bar) (ema21 ema50 atr : List ℚ)
    (st : EMA.SigGenState) (i : ℕ) :
    (EMA.sig_step bars ema21 ema50 atr st i).out = st.out ∨
    ∃ sig : EMA.EMASignal, sig.date = date_at bars i ∧
      (EMA.sig_step bars ema21 ema50 atr st i).out = st.out ++ [sig] := by
  rw [EMA.sig_step]
  split_ifs with h1 h2 h3
  · right
    refine ⟨_, ?_, rfl⟩
    rfl
  · left; trivial
  · cases hsell : EMA.sell_signal bars ema21 i (close_at bars i) (ema21.getD i 0)
      (EMA.trailing_update st (close_at bars i) (atr.getD i 0)).2 with
    | none => simp only [hsell]; left; trivial
    | some r =>
      simp only [hsell]
      right
      refine ⟨_, ?_, rfl⟩
      rfl
  · left; trivial

/-- Output invariant of the signal-generation loop. -/
def SigInv (bars : List Bar) (idxs : List ℕ) (st : EMA.SigGenState) : Prop :=
  st.out.Pairwise (fun a b => a.date ≤ b.date) ∧
  (∀ s ∈ st.out, ∀ j ∈ idxs, s.date ≤ date_at bars j) ∧
  (∀ s ∈ st.out, bars ≠ [] → s.date ≤ date_at bars (bars.length - 1))

/-- A signal-generation step preserves the output invariant. -/
theorem sig_step_inv (bars : List Bar) (ema21 ema50 atr : List ℚ)
    (hs : List.Sorted (· ≤ ·) (bars.map Bar.date)) (i : ℕ) (idxs : List ℕ)
    (hi : i < bars.length) (hfut : ∀ j ∈ idxs, i ≤ j ∧ j < bars.length)
    (st : EMA.SigGenState) (hinv : SigInv bars (i :: idxs) st) :
    SigInv bars idxs (EMA.sig_step bars ema21 ema50 atr st i) := by
  obtain ⟨hpw, hfutb, hlastb⟩ := hinv
  have hfmono : ∀ j ∈ idxs, date_at bars i ≤ date_at bars j := fun j hj =>
    date_at_mono hs (hfut j hj).1 (hfut j hj).2
  have hlasti : date_at bars i ≤ date_at bars (bars.length - 1) :=
    date_at_mono hs (by omega) (by omega)
  rcases sig_step_out bars ema21 ema50 atr st i with h | ⟨sig, hdate, h⟩
  · rw [SigInv, h]
    exact ⟨hpw, fun s hsm j hj => hfutb s hsm j (List.mem_cons_of_mem i hj),
           hlastb⟩
  · rw [SigInv, h]
    refine ⟨?_, ?_, ?_⟩
    · rw [List.pairwise_append]
      refine ⟨hpw, by simp, ?_⟩
      intro a ha b hb
      simp at hb
      subst hb
      rw [hdate]
      exact hfutb a ha i (List.mem_cons_self i idxs)
    · intro s hsm j hj
      rcases List.mem_append.1 hsm with hsm | hsm
      · exact hfutb s hsm j (List.mem_cons_of_mem i hj)
      · simp at hsm
        subst hsm
        rw [hdate]
        exact hfmono j hj
    · intro s hsm _
      rcases List.mem_append.1 hsm with hsm | hsm
      · exact hlastb s hsm (by assumption)
      · simp at hsm
        subst hsm
        rw [hdate]
        exact hlasti

/-- The whole signal-generation fold preserves the output invariant. -/
theorem sig_fold_inv (bars : List Bar) (ema21 ema50 atr : List ℚ)
    (hs : List.Sorted (· ≤ ·) (bars.map Bar.date)) :
    ∀ (idxs : List ℕ) (st : EMA.SigGenState),
      idxs.Pairwise (· ≤ ·) → (∀ j ∈ idxs, j < bars.length) →
      SigInv bars idxs st →
      SigInv bars [] (idxs.foldl (EMA.sig_step bars ema21 ema50 atr) st) := by
  intro idxs
  induction idxs with
  | nil => intro st _ _ h; exact h
  | cons i rest ih =>
    intro st hpw hrange hinv
    rw [List.foldl_cons]
    refine ih _ hpw.of_cons (fun j hj => hrange j (List.mem_cons_of_mem i hj)) ?_
    refine sig_step_inv bars ema21 ema50 atr hs i rest
      (hrange i (List.mem_cons_self i rest)) ?_ st hinv
    intro j hj
    exact ⟨List.rel_of_pairwise_cons hpw hj, hrange j (List.mem_cons_of_mem i hj)⟩

/-- The generated EMA signals are date-ascending and dated within the
series. -/
theorem generate_ema_signals_sorted (bars : List Bar)
    (hs : List.Sorted (· ≤ ·) (bars.map Bar.date)) :
    (EMA.generate_ema_signals bars).Pairwise (fun a b => a.date ≤ b.date) ∧
    (∀ s ∈ EMA.generate_ema_signals bars, bars ≠ [] →
      s.date ≤ date_at bars (bars.length - 1)) := by
  rw [EMA.generate_ema_signals]
  have h := sig_fold_inv bars
    (EMA.ewm_series EMA.ema_21_period (bars.map (fun b => b.close)))
    (EMA.ewm_series EMA.ema_50_period (bars.map (fun b => b.close)))
    (EMA.atr_series EMA.atr_period bars) hs
    (List.range' (max EMA.ema_50_period EMA.atr_period)
      (bars.length - max EMA.ema_50_period EMA.atr_period))
    { in_trade := false, trailing_stop := none, highest := none, out := [] }
    (pairwise_le_range_one _ _)
    (fun j hj => by
      have := mem_range_one hj
      omega)
    ⟨List.Pairwise.nil, by simp, by simp⟩
  exact ⟨h.1, h.2.2⟩

/-- Every completed moving-average run yields chained trade intervals. -/
theorem run_analysis_intervals (cap0 : ℚ) (bars : List Bar)
    (hs : List.Sorted (· ≤ ·) (bars.map Bar.date)) (r : EMA.EMAResults)
    (h : EMA.run_analysis cap0 bars = .ok r) :
    intervals_ok (ema_pairs r.trades) := by
  rw [EMA.run_analysis] at h
  split_ifs at h with hlen
  have hbne : bars ≠ [] := by
    rintro rfl
    simp [EMA.ema_50_period] at hlen
  obtain ⟨hpw, hbound⟩ := generate_ema_signals_sorted bars hs
  cases h
  show intervals_ok (ema_pairs (EMA.execute_trades cap0 bars (EMA.generate_ema_signals bars)))
  rw [EMA.execute_trades]
  have hfold : ExecInv bars []
      ((EMA.generate_ema_signals bars).foldl (EMA.exec_step bars)
        { position := none, available := cap0, trades := [] }) := by
    refine exec_fold_inv bars _ _ hpw hbound ?_
    refine ⟨⟨?_, ?_⟩, ?_, ?_⟩
    · intro p hp; cases hp
    · exact List.Pairwise.nil
    · intro p hp; cases hp
    · intro t ht; cases ht
  obtain ⟨hok, hpos, htr⟩ := hfold
  cases hp : ((EMA.generate_ema_signals bars).foldl (EMA.exec_step bars)
      { position := none, available := cap0, trades := [] }).position with
  | none => simpa [hp] using hok
  | some p =>
    simp only [hp]
    obtain ⟨hle, -, hlast⟩ := hpos p hp
    rw [ema_pairs, List.map_append]
    refine intervals_ok_append hok ?_ ?_
    · show p.entry_date ≤ (bars.getLastD dummyBar).date
      rw [getLastD_eq_getD bars dummyBar hbne]
      exact hlast hbne
    · intro pr hpr
      obtain ⟨t, htm, rfl⟩ := List.mem_map.1 hpr
      exact hle t htm

/-- Interval list of a sweep-engine trade list. -/
def sl_pairs (trades : List SLOpt.SLTrade) : List (ℤ × ℤ) :=
  trades.map (fun t => (t.entry_date, t.exit_date))

/-- Case analysis of one `_backtest_with_stop_loss` iteration. -/
theorem sl_step_spec (sl : ℚ) (st : SLOpt.SLState) (s : SLOpt.SLSignal) :
    ((SLOpt.sl_step sl st s).position = st.position ∧
     (SLOpt.sl_step sl st s).trades = st.trades) ∨
    (st.position = none ∧ (SLOpt.sl_step sl st s).trades = st.trades ∧
      ∃ p, (SLOpt.sl_step sl st s).position = some p ∧ p.entry_date = s.date) ∨
    (∃ p, st.position = some p ∧ (SLOpt.sl_step sl st s).position = none ∧
      ∃ t, (SLOpt.sl_step sl st s).trades = st.trades ++ [t] ∧
        t.entry_date = p.entry_date ∧ t.exit_date = s.date) := by
  by_cases h1 : s.action = Wyckoff.Action.buy ∧ st.position = none
  · rw [SLOpt.sl_step, if_pos h1]
    right; left
    exact ⟨h1.2, rfl, _, rfl, rfl⟩
  · rw [SLOpt.sl_step, if_neg h1]
    by_cases h2 : s.action = Wyckoff.Action.sell ∧ st.position ≠ none
    · rw [if_pos h2]
      cases hp : st.position with
      | none => exact absurd hp h2.2
      | some p =>
        simp only
        by_cases h3 : s.price ≤ p.entry_price * (1 - sl)
        · right; right
          refine ⟨p, ?_, ?_,
            { entry_date := p.entry_date, exit_date := s.date,
              entry_price := p.entry_price, exit_price := p.entry_price * (1 - sl),
              shares := p.shares,
              pnl := (p.entry_price * (1 - sl) - p.entry_price) * p.shares,
              pnl_percent := (p.entry_price * (1 - sl) - p.entry_price) /
                p.entry_price * 100,
              exit_reason := "Stop Loss" }, ?_, ?_, ?_⟩ <;>
            first | exact hp | simp [h3]
        · right; right
          refine ⟨p, ?_, ?_,
            { entry_date := p.entry_date, exit_date := s.date,
              entry_price := p.entry_price, exit_price := s.price,
              shares := p.shares,
              pnl := (s.price - p.entry_price) * p.shares,
              pnl_percent := (s.price - p.entry_price) / p.entry_price * 100,
              exit_reason := "Signal" }, ?_, ?_, ?_⟩ <;>
            first | exact hp | simp [h3]
    · rw [if_neg h2]
      left
      exact ⟨rfl, rfl⟩

/-- Invariant of the sweep-engine loop relative to the remaining signals;
`pdata` is the period-filtered bar list used by the force close. -/
def SLInv (pdata : List Bar) (sigs : List SLOpt.SLSignal) (st : SLOpt.SLState) : Prop :=
  intervals_ok (sl_pairs st.trades) ∧
  (∀ p, st.position = some p →
    (∀ t ∈ st.trades, t.exit_date ≤ p.entry_date) ∧
    (∀ s ∈ sigs, p.entry_date ≤ s.date) ∧
    (∀ b, pdata.getLast? = some b → p.entry_date ≤ b.date)) ∧
  (∀ t ∈ st.trades, ∀ s ∈ sigs, t.exit_date ≤ s.date)

/-- One sweep-engine iteration preserves the interval invariant. -/
theorem sl_step_inv (pdata : List Bar) (sl : ℚ) (s : SLOpt.SLSignal)
    (sigs : List SLOpt.SLSignal)
    (hrest : ∀ s' ∈ sigs, s.date ≤ s'.date)
    (hlast : ∀ b, pdata.getLast? = some b → s.date ≤ b.date)
    (st : SLOpt.SLState) (hinv : SLInv pdata (s :: sigs) st) :
    SLInv pdata sigs (SLOpt.sl_step sl st s) := by
  obtain ⟨hok, hpos, htr⟩ := hinv
  rcases sl_step_spec sl st s with ⟨hp1, ht1⟩ | ⟨hnone, ht1, p, hp1, hdate⟩ |
    ⟨p, hp, hp1, t, ht1, hte, htx⟩
  · refine ⟨?_, ?_, ?_⟩
    · rw [sl_pairs, ht1, ← sl_pairs]; exact hok
    · intro q hq
      rw [hp1] at hq
      obtain ⟨a, b, c⟩ := hpos q hq
      exact ⟨by rw [ht1]; exact a,
             fun s' hs' => b s' (List.mem_cons_of_mem s hs'), c⟩
    · intro t htm s' hs'
      rw [ht1] at htm
      exact htr t htm s' (List.mem_cons_of_mem s hs')
  · refine ⟨?_, ?_, ?_⟩
    · rw [sl_pairs, ht1, ← sl_pairs]; exact hok
    · intro q hq
      rw [hp1] at hq
      cases hq
      rw [hdate]
      refine ⟨?_, hrest, hlast⟩
      intro t htm
      rw [ht1] at htm
      exact htr t htm s (List.mem_cons_self s sigs)
    · intro t htm s' hs'
      rw [ht1] at htm
      exact htr t htm s' (List.mem_cons_of_mem s hs')
  · obtain ⟨hle, hfutp, hlastp⟩ := hpos p hp
    refine ⟨?_, ?_, ?_⟩
    · rw [sl_pairs, ht1, List.map_append]
      refine intervals_ok_append hok ?_ ?_
      · show t.entry_date ≤ t.exit_date
        rw [hte, htx]
        exact hfutp s (List.mem_cons_self s sigs)
      · intro pr hpr
        obtain ⟨t', htm, rfl⟩ := List.mem_map.1 hpr
        show t'.exit_date ≤ t.entry_date
        rw [hte]
        exact hle t' htm
    · intro q hq
      rw [hp1] at hq
      cases hq
    · intro t' htm s' hs'
      rw [ht1] at htm
      rcases List.mem_append.1 htm with htm | htm
      · exact htr t' htm s' (List.mem_cons_of_mem s hs')
      · simp at htm
        subst htm
        rw [htx]
        exact hrest s' hs'

/-- The whole sweep-engine fold preserves the interval invariant. -/
theorem sl_fold_inv (pdata : List Bar) (sl : ℚ) :
    ∀ (sigs : List SLOpt.SLSignal) (st : SLOpt.SLState),
      sigs.Pairwise (fun a b => a.date ≤ b.date) →
      (∀ s ∈ sigs, ∀ b, pdata.getLast? = some b → s.date ≤ b.date) →
      SLInv pdata sigs st →
      SLInv pdata [] (sigs.foldl (SLOpt.sl_step sl) st) := by
  intro sigs
  induction sigs with
  | nil => intro st _ _ h; exact h
  | cons s rest ih =>
    intro st hpw hlast hinv
    rw [List.foldl_cons]
    refine ih _ hpw.of_cons (fun s' hs' => hlast s' (List.mem_cons_of_mem s hs')) ?_
    exact sl_step_inv pdata sl s rest (fun s' hs' => List.rel_of_pairwise_cons hpw hs')
      (hlast s (List.mem_cons_self s rest)) st hinv

/-- Sorted member versus the optional last element. -/
theorem mem_date_le_getLast {l : List Bar}
    (hsort : List.Sorted (· ≤ ·) (l.map Bar.date)) {b b' : Bar}
    (hb : b ∈ l) (hlast : l.getLast? = some b') : b.date ≤ b'.date := by
  have hne : l ≠ [] := by rintro rfl; cases hlast
  have h2 : l.getLastD dummyBar = b' := by
    rw [List.getLastD_eq_getLast?, hlast]
    rfl
  calc b.date ≤ date_at l (l.length - 1) := date_le_last hsort hb
    _ = b'.date := by rw [date_at, ← getLastD_eq_getD l dummyBar hne, h2]

/-- Filtering preserves date-sortedness. -/
theorem sorted_filter (bars : List Bar) (p : Bar → Bool)
    (hs : List.Sorted (· ≤ ·) (bars.map Bar.date)) :
    List.Sorted (· ≤ ·) ((bars.filter p).map Bar.date) :=
  List.Pairwise.sublist (List.Sublist.map Bar.date (List.filter_sublist bars)) hs

/-- Every completed sweep-engine run on in-period, date-ascending signals
yields chained trade intervals. -/
theorem backtest_sl_intervals (cap0 : ℚ) (bars : List Bar)
    (signals : List SLOpt.SLSignal) (sl : ℚ) (ps pe : ℤ) (r : SLOpt.SLRun)
    (hs : List.Sorted (· ≤ ·) (bars.map Bar.date))
    (hpw : signals.Pairwise (fun a b => a.date ≤ b.date))
    (hmem : ∀ s ∈ signals, ∃ b ∈ bars, b.date = s.date ∧ ps ≤ s.date ∧ s.date ≤ pe)
    (h : SLOpt.backtest_with_stop_loss cap0 bars signals sl ps pe = some r) :
    intervals_ok (sl_pairs r.trades) := by
  rw [SLOpt.backtest_with_stop_loss] at h
  have hpsort : List.Sorted (· ≤ ·)
      ((bars.filter (fun b => decide (ps ≤ b.date ∧ b.date ≤ pe))).map Bar.date) :=
    sorted_filter bars _ hs
  have hlastbound : ∀ s ∈ signals, ∀ b,
      (bars.filter (fun b => decide (ps ≤ b.date ∧ b.date ≤ pe))).getLast? = some b →
      s.date ≤ b.date := by
    intro s hsm b hb
    obtain ⟨b0, hb0, hd, hps', hpe'⟩ := hmem s hsm
    have hbm : b0 ∈ bars.filter (fun b => decide (ps ≤ b.date ∧ b.date ≤ pe)) := by
      refine List.mem_filter.2 ⟨hb0, ?_⟩
      simp [hd, hps', hpe']
    have := mem_date_le_getLast hpsort hbm hb
    rw [← hd]
    exact this
  have hfold : SLInv (bars.filter (fun b => decide (ps ≤ b.date ∧ b.date ≤ pe))) []
      (signals.foldl (SLOpt.sl_step sl)
        { capital := cap0, position := none, trades := [], equity := [cap0] }) := by
    refine sl_fold_inv _ sl signals _ hpw hlastbound ?_
    refine ⟨⟨?_, ?_⟩, ?_, ?_⟩
    · intro p hp; cases hp
    · exact List.Pairwise.nil
    · intro p hp; cases hp
    · intro t ht; cases ht
  obtain ⟨hok, hpos, htr⟩ := hfold
  cases hp : (signals.foldl (SLOpt.sl_step sl)
      { capital := cap0, position := none, trades := [], equity := [cap0] }).position with
  | none =>
    simp only [hp] at h
    cases h
    exact hok
  | some p =>
    simp only [hp] at h
    cases hl : (bars.filter (fun b => decide (ps ≤ b.date ∧ b.date ≤ pe))).getLast? with
    | none => rw [hl] at h; cases h
    | some b =>
      rw [hl] at h
      cases h
      obtain ⟨hle, -, hlast⟩ := hpos p hp
      show intervals_ok (sl_pairs (_ ++ [_]))
      rw [sl_pairs, List.map_append]
      refine intervals_ok_append hok ?_ ?_
      · exact hlast b hl
      · intro pr hpr
        obtain ⟨t, htm, rfl⟩ := List.mem_map.1 hpr
        exact hle t htm

/-- C2 (amended): in all three engines every trade closes no earlier than
it opens and trades are sequential — each trade's exit date is at most
every later trade's entry date, so interval interiors are disjoint and at
most one position is open at any timestamp; however a new trade may open
on the very bar the previous one closes, so the closed intervals may
share a boundary date. -/
theorem c2_trades_sequential :
    (∀ (cap0 : ℚ) (bars : List Bar) (r : Wyckoff.BacktestResults),
      List.Sorted (· ≤ ·) (bars.map Bar.date) →
      Wyckoff.run_backtest cap0 bars = some r →
      intervals_ok (trade_pairs r.trades)) ∧
    (∀ (cap0 : ℚ) (bars : List Bar) (r : EMA.EMAResults),
      List.Sorted (· ≤ ·) (bars.map Bar.date) →
      EMA.run_analysis cap0 bars = .ok r →
      intervals_ok (ema_pairs r.trades)) ∧
    (∀ (cap0 : ℚ) (bars : List Bar) (signals : List SLOpt.SLSignal)
       (sl : ℚ) (ps pe : ℤ) (r : SLOpt.SLRun),
      List.Sorted (· ≤ ·) (bars.map Bar.date) →
      signals.Pairwise (fun a b => a.date ≤ b.date) →
      (∀ s ∈ signals, ∃ b ∈ bars, b.date = s.date ∧ ps ≤ s.date ∧ s.date ≤ pe) →
      SLOpt.backtest_with_stop_loss cap0 bars signals sl ps pe = some r →
      intervals_ok (sl_pairs r.trades)) :=
  ⟨fun cap0 bars r hs h => run_backtest_intervals cap0 bars hs r h,
   fun cap0 bars r hs h => run_analysis_intervals cap0 bars hs r h,
   fun cap0 bars signals sl ps pe r hs hpw hmem h =>
     backtest_sl_intervals cap0 bars signals sl ps pe r hs hpw hmem h⟩

set_option maxRecDepth 8000 in
/-- Witness for `c2_trades_sequential`: one concrete completed run per
engine. -/
theorem c2_trades_sequential_witness :
    (∃ r, Wyckoff.run_backtest 100000 flatBars = some r ∧
      intervals_ok (trade_pairs r.trades)) ∧
    (∃ r, EMA.run_analysis 100000 (flatBarsN 50) = .ok r ∧
      intervals_ok (ema_pairs r.trades)) ∧
    (∃ r, SLOpt.backtest_with_stop_loss 100000 c4SlBars c4SlSigs (5/100) 0 3 = some r ∧
      intervals_ok (sl_pairs r.trades)) := by
  refine ⟨?_, ?_, ?_⟩
  · have hsome : (Wyckoff.run_backtest 100000 flatBars).isSome = true := by
      with_unfolding_all rfl
    refine ⟨_, (Option.some_get hsome).symm,
      c2_trades_sequential.1 100000 flatBars _ (by with_unfolding_all decide)
        (Option.some_get hsome).symm⟩
  · have hr : EMA.run_analysis 100000 (flatBarsN 50) =
        .ok { start_date := 0, end_date := 49, total_days := 50,
              trades := [], signals := [] } := by
      with_unfolding_all rfl
    exact ⟨_, hr, c2_trades_sequential.2.1 100000 (flatBarsN 50) _
      (by with_unfolding_all decide) hr⟩
  · have hsome : (SLOpt.backtest_with_stop_loss 100000 c4SlBars c4SlSigs
        (5/100) 0 3).isSome = true := by
      with_unfolding_all rfl
    refine ⟨_, (Option.some_get hsome).symm,
      c2_trades_sequential.2.2 100000 c4SlBars c4SlSigs (5/100) 0 3 _
        (by with_unfolding_all decide) (by with_unfolding_all decide)
        (by with_unfolding_all decide) (Option.some_get hsome).symm⟩

set_option maxRecDepth 8000 in
/-- Counterexample to C2 as stated: on the flat 100-bar series the two
trades occupy the closed intervals [30, 90] and [90, 99], which intersect
at timestamp 90 — the second trade opens on the same bar the first one
closes, so closed trade intervals are not disjoint. -/
theorem c2_intervals_share_endpoint :
    (Wyckoff.run_backtest 100000 flatBars).map (fun r => trade_pairs r.trades) =
      some [(30, 90), (90, 99)] := by
  with_unfolding_all rfl

/-- Unfolding of the scan prefix by one step. -/
theorem state_at_succ (cap0 : ℚ) (bars : List Bar) (k : ℕ) :
    Wyckoff.state_at cap0 bars (k + 1) =
      Wyckoff.scan_step bars (Wyckoff.state_at cap0 bars k) (Wyckoff.scan_start + k) := by
  rw [Wyckoff.state_at, Wyckoff.state_at, List.range'_1_concat, List.foldl_append]
  rfl

/-- The equity curve after scanning `k` bars: one point per scanned bar,
each the date paired with the portfolio value marked at that bar's close
in the post-update state. -/
theorem state_at_equity (cap0 : ℚ) (bars : List Bar) :
    ∀ k : ℕ, (Wyckoff.state_at cap0 bars k).equity =
      (List.range k).map (fun j =>
        (date_at bars (Wyckoff.scan_start + j),
         Wyckoff.portfolio_value (Wyckoff.state_at cap0 bars (j + 1)).position
           (Wyckoff.state_at cap0 bars (j + 1)).capital
           (close_at bars (Wyckoff.scan_start + j)))) := by
  intro k
  induction k with
  | zero => rfl
  | succ k ih =>
    rw [state_at_succ, scan_step_equity, ih, List.range_succ, List.map_append,
      ← state_at_succ]
    rfl

/-- The final force close leaves the equity curve unchanged. -/
theorem run_backtest_equity (cap0 : ℚ) (bars : List Bar) (r : Wyckoff.BacktestResults)
    (h : Wyckoff.run_backtest cap0 bars = some r) :
    r.equity = (Wyckoff.state_at cap0 bars (bars.length - Wyckoff.scan_start)).equity := by
  rw [Wyckoff.run_backtest] at h
  split_ifs at h
  cases h
  cases hp : (Wyckoff.state_at cap0 bars (bars.length - Wyckoff.scan_start)).position <;>
    simp [hp]

/-- C3: a completed phase-based run's equity curve has exactly
`n − 30` points (one per scanned bar, 30 being the scan lookback), and
point `k` carries the scanned bar's date and `_calculate_portfolio_value`
of the post-update state at that bar — realized capital plus mark-to-close
unrealized P&L of any open position. -/
theorem c3_equity_curve (cap0 : ℚ) (bars : List Bar) (r : Wyckoff.BacktestResults)
    (h : Wyckoff.run_backtest cap0 bars = some r) :
    r.equity.length = bars.length - Wyckoff.scan_start ∧
    (∀ k, k < bars.length - Wyckoff.scan_start →
      r.equity.getD k (0, 0) =
        (date_at bars (Wyckoff.scan_start + k),
         Wyckoff.portfolio_value (Wyckoff.state_at cap0 bars (k + 1)).position
           (Wyckoff.state_at cap0 bars (k + 1)).capital
           (close_at bars (Wyckoff.scan_start + k)))) := by
  have heq := run_backtest_equity cap0 bars r h
  rw [heq, state_at_equity]
  constructor
  · rw [List.length_map, List.length_range]
  · intro k hk
    have hk' : k < (List.range (bars.length - Wyckoff.scan_start)).length := by
      rwa [List.length_range]
    have hk'' : k < ((List.range (bars.length - Wyckoff.scan_start)).map (fun j =>
        (date_at bars (Wyckoff.scan_start + j),
         Wyckoff.portfolio_value (Wyckoff.state_at cap0 bars (j + 1)).position
           (Wyckoff.state_at cap0 bars (j + 1)).capital
           (close_at bars (Wyckoff.scan_start + j))))).length := by
      rw [List.length_map, List.length_range]
      exact hk
    rw [List.getD_eq_getElem _ _ hk'', List.getElem_map, List.getElem_range]

set_option maxRecDepth 8000 in
/-- Witness for `c3_equity_curve` on the flat 100-bar series: 70 points,
the first point being bar 30 marked at the initial capital. -/
theorem c3_equity_curve_witness :
    ∃ r, Wyckoff.run_backtest 100000 flatBars = some r ∧
      r.equity.length = 70 ∧ r.equity.getD 0 (0, 0) = (30, 100000) := by
  have hsome : (Wyckoff.run_backtest 100000 flatBars).isSome = true := by
    with_unfolding_all rfl
  have h := c3_equity_curve 100000 flatBars _ (Option.some_get hsome).symm
  refine ⟨_, (Option.some_get hsome).symm, ?_, ?_⟩
  · rw [h.1]
    with_unfolding_all rfl
  · rw [h.2 0 (by with_unfolding_all decide)]
    with_unfolding_all rfl

/-- Trade skeleton: the data of a sweep-engine trade that is independent
of the stop-loss percentage. -/
def sl_skel (t : SLOpt.SLTrade) : ℤ × ℚ × ℤ := (t.entry_date, t.entry_price, t.exit_date)

/-- Relation between two sweep-engine loop states that differ only in the
stop-loss percentage: positions exist together and agree on when and at
what price they were entered, and the trade skeletons agree. -/
def SLRel (st₁ st₂ : SLOpt.SLState) : Prop :=
  (st₁.position = none ↔ st₂.position = none) ∧
  (∀ p₁ p₂, st₁.position = some p₁ → st₂.position = some p₂ →
    p₁.entry_date = p₂.entry_date ∧ p₁.entry_price = p₂.entry_price) ∧
  st₁.trades.map sl_skel = st₂.trades.map sl_skel

/-- One sweep-engine iteration preserves the stop-loss-independence
relation. -/
theorem sl_step_rel (sl₁ sl₂ : ℚ) (s : SLOpt.SLSignal) {st₁ st₂ : SLOpt.SLState}
    (h : SLRel st₁ st₂) : SLRel (SLOpt.sl_step sl₁ st₁ s) (SLOpt.sl_step sl₂ st₂ s) := by
  obtain ⟨hiff, hent, htr⟩ := h
  by_cases hb : s.action = Wyckoff.Action.buy ∧ st₁.position = none
  · have hb₂ : s.action = Wyckoff.Action.buy ∧ st₂.position = none :=
      ⟨hb.1, hiff.1 hb.2⟩
    rw [SLOpt.sl_step, if_pos hb, SLOpt.sl_step, if_pos hb₂]
    refine ⟨by simp, ?_, htr⟩
    intro p₁ p₂ hp₁ hp₂
    simp only [Option.some_inj] at hp₁ hp₂
    rw [← hp₁, ← hp₂]
    exact ⟨rfl, rfl⟩
  · have hb₂ : ¬(s.action = Wyckoff.Action.buy ∧ st₂.position = none) := by
      rintro ⟨ha, hn⟩
      exact hb ⟨ha, hiff.2 hn⟩
    rw [SLOpt.sl_step, if_neg hb, SLOpt.sl_step, if_neg hb₂]
    by_cases hsell : s.action = Wyckoff.Action.sell ∧ st₁.position ≠ none
    · have hsell₂ : s.action = Wyckoff.Action.sell ∧ st₂.position ≠ none := by
        refine ⟨hsell.1, fun hn => hsell.2 (hiff.2 hn)⟩
      rw [if_pos hsell, if_pos hsell₂]
      cases hp₁ : st₁.position with
      | none => exact absurd hp₁ hsell.2
      | some p₁ =>
        cases hp₂ : st₂.position with
        | none => exact absurd hp₂ hsell₂.2
        | some p₂ =>
          obtain ⟨hd, hpr⟩ := hent p₁ p₂ hp₁ hp₂
          simp only
          split_ifs <;>
          · refine ⟨by simp, ?_, ?_⟩
            · intro q₁ q₂ hq₁ hq₂
              cases hq₁
            · simp only [List.map_append, List.map_cons, List.map_nil, sl_skel]
              rw [htr, hd, hpr]
    · have hsell₂ : ¬(s.action = Wyckoff.Action.sell ∧ st₂.position ≠ none) := by
        rintro ⟨ha, hn⟩
        refine hsell ⟨ha, fun hn₁ => hn (hiff.1 hn₁)⟩
      rw [if_neg hsell, if_neg hsell₂]
      exact ⟨hiff, hent, htr⟩

/-- The whole sweep-engine fold preserves the relation. -/
theorem sl_fold_rel (sl₁ sl₂ : ℚ) :
    ∀ (sigs : List SLOpt.SLSignal) {st₁ st₂ : SLOpt.SLState}, SLRel st₁ st₂ →
      SLRel (sigs.foldl (SLOpt.sl_step sl₁) st₁) (sigs.foldl (SLOpt.sl_step sl₂) st₂) := by
  intro sigs
  induction sigs with
  | nil => intro st₁ st₂ h; exact h
  | cons s rest ih =>
    intro st₁ st₂ h
    rw [List.foldl_cons, List.foldl_cons]
    exact ih (sl_step_rel sl₁ sl₂ s h)

/-- C10: two sweep-engine runs on the same bars and signals differing
only in the stop-loss percentage fault together, and produce the same
number of trades with identical entry dates, entry prices and exit dates;
within one run, a SELL-signal exit records the signal price clipped from
below at `entry_price × (1 − sl)`, tagged "Stop Loss" exactly when the
clip binds — so the stop-loss percentage affects only exit prices and the
P&L, capital and metrics derived from them. -/
theorem c10_stop_loss_skeleton_invariance (cap0 : ℚ) (bars : List Bar)
    (signals : List SLOpt.SLSignal) (ps pe : ℤ) (sl₁ sl₂ : ℚ) :
    ((SLOpt.backtest_with_stop_loss cap0 bars signals sl₁ ps pe).isSome ↔
     (SLOpt.backtest_with_stop_loss cap0 bars signals sl₂ ps pe).isSome) ∧
    (∀ r₁ r₂, SLOpt.backtest_with_stop_loss cap0 bars signals sl₁ ps pe = some r₁ →
       SLOpt.backtest_with_stop_loss cap0 bars signals sl₂ ps pe = some r₂ →
       r₁.trades.map sl_skel = r₂.trades.map sl_skel) ∧
    (∀ (sl : ℚ) (st : SLOpt.SLState) (s : SLOpt.SLSignal) (p : SLOpt.SLPosition),
      st.position = some p → s.action = Wyckoff.Action.sell →
      ∃ t, (SLOpt.sl_step sl st s).trades = st.trades ++ [t] ∧
        t.entry_price = p.entry_price ∧ t.exit_date = s.date ∧
        t.exit_price = max (p.entry_price * (1 - sl)) s.price ∧
        (t.exit_reason = "Stop Loss" ↔ s.price ≤ p.entry_price * (1 - sl))) := by
  have hrel : SLRel
      (signals.foldl (SLOpt.sl_step sl₁)
        { capital := cap0, position := none, trades := [], equity := [cap0] })
      (signals.foldl (SLOpt.sl_step sl₂)
        { capital := cap0, position := none, trades := [], equity := [cap0] }) := by
    refine sl_fold_rel sl₁ sl₂ signals ⟨Iff.rfl, ?_, rfl⟩
    intro p₁ p₂ h₁ _
    cases h₁
  obtain ⟨hiff, hent, htr⟩ := hrel
  refine ⟨?_, ?_, ?_⟩
  · rw [SLOpt.backtest_with_stop_loss, SLOpt.backtest_with_stop_loss]
    cases h₁ : (signals.foldl (SLOpt.sl_step sl₁)
        { capital := cap0, position := none, trades := [], equity := [cap0] }).position with
    | none =>
      have h₂ := hiff.1 h₁
      simp [h₁, h₂]
    | some p₁ =>
      cases h₂ : (signals.foldl (SLOpt.sl_step sl₂)
          { capital := cap0, position := none, trades := [], equity := [cap0] }).position with
      | none =>
        rw [hiff.2 h₂] at h₁
        cases h₁
      | some p₂ =>
        simp only [h₁, h₂]
        cases hl : (bars.filter (fun b => decide (ps ≤ b.date ∧ b.date ≤ pe))).getLast? <;>
          simp [hl]
  · intro r₁ r₂ hr₁ hr₂
    rw [SLOpt.backtest_with_stop_loss] at hr₁ hr₂
    cases h₁ : (signals.foldl (SLOpt.sl_step sl₁)
        { capital := cap0, position := none, trades := [], equity := [cap0] }).position with
    | none =>
      have h₂ := hiff.1 h₁
      rw [h₁] at hr₁
      rw [h₂] at hr₂
      cases hr₁
      cases hr₂
      exact htr
    | some p₁ =>
      cases h₂ : (signals.foldl (SLOpt.sl_step sl₂)
          { capital := cap0, position := none, trades := [], equity := [cap0] }).position with
      | none =>
        rw [hiff.2 h₂] at h₁
        cases h₁
      | some p₂ =>
        rw [h₁] at hr₁
        rw [h₂] at hr₂
        cases hl : (bars.filter (fun b => decide (ps ≤ b.date ∧ b.date ≤ pe))).getLast? with
        | none =>
          rw [hl] at hr₁
          cases hr₁
        | some b =>
          rw [hl] at hr₁ hr₂
          cases hr₁
          cases hr₂
          obtain ⟨hd, hpr⟩ := hent p₁ p₂ h₁ h₂
          simp only [List.map_append, List.map_cons, List.map_nil, sl_skel]
          rw [htr, hd, hpr]
  · intro sl st s p hpos hsell
    by_cases h : s.price ≤ p.entry_price * (1 - sl)
    · refine ⟨{ entry_date := p.entry_date, exit_date := s.date,
                entry_price := p.entry_price,
                exit_price := p.entry_price * (1 - sl),
                shares := p.shares,
                pnl := (p.entry_price * (1 - sl) - p.entry_price) * p.shares,
                pnl_percent := (p.entry_price * (1 - sl) - p.entry_price) /
                  p.entry_price * 100,
                exit_reason := "Stop Loss" }, ?_, rfl, rfl,
              (max_eq_left h).symm, by simp [h]⟩
      simp [SLOpt.sl_step, hpos, hsell, h]
    · refine ⟨{ entry_date := p.entry_date, exit_date := s.date,
                entry_price := p.entry_price,
                exit_price := s.price,
                shares := p.shares,
                pnl := (s.price - p.entry_price) * p.shares,
                pnl_percent := (s.price - p.entry_price) / p.entry_price * 100,
                exit_reason := "Signal" }, ?_, rfl, rfl,
              (max_eq_right (le_of_not_le h)).symm, ?_⟩
      · simp [SLOpt.sl_step, hpos, hsell, h]
      · constructor
        · intro hcon
          have hne2 : ("Signal" : String) ≠ "Stop Loss" := by decide
          exact absurd hcon hne2
        · intro hcon
          exact absurd hcon h

set_option maxRecDepth 8000 in
/-- Witness for `c10_stop_loss_skeleton_invariance`: two concrete runs
with stop-losses 5% and 15% share the same trade skeleton. -/
theorem c10_stop_loss_skeleton_invariance_witness :
    ∃ r₁ r₂,
      SLOpt.backtest_with_stop_loss 100000 c4SlBars c4SlSigs (5/100) 0 3 = some r₁ ∧
      SLOpt.backtest_with_stop_loss 100000 c4SlBars c4SlSigs (15/100) 0 3 = some r₂ ∧
      r₁.trades.map sl_skel = r₂.trades.map sl_skel := by
  have hsome₁ : (SLOpt.backtest_with_stop_loss 100000 c4SlBars c4SlSigs
      (5/100) 0 3).isSome = true := by with_unfolding_all rfl
  have hsome₂ : (SLOpt.backtest_with_stop_loss 100000 c4SlBars c4SlSigs
      (15/100) 0 3).isSome = true := by with_unfolding_all rfl
  exact ⟨_, _, (Option.some_get hsome₁).symm, (Option.some_get hsome₂).symm,
    (c10_stop_loss_skeleton_invariance 100000 c4SlBars c4SlSigs 0 3
      (5/100) (15/100)).2.1 _ _
      (Option.some_get hsome₁).symm (Option.some_get hsome₂).symm⟩

/-- Right-membership inversion for `Forall₂`. -/
theorem forall₂_mem_right {α β : Type} {R : α → β → Prop} :
    ∀ {as : List α} {bs : List β}, List.Forall₂ R as bs → ∀ b ∈ bs, ∃ a ∈ as, R a b := by
  intro as bs h
  induction h with
  | nil => intro b hb; cases hb
  | cons hr _ ih =>
    intro b hb
    rcases List.mem_cons.1 hb with hb | hb
    · subst hb; exact ⟨_, List.mem_cons_self _ _, hr⟩
    · obtain ⟨a, ha, har⟩ := ih b hb
      exact ⟨a, List.mem_cons_of_mem _ ha, har⟩

/-- Left-membership inversion for `Forall₂`. -/
theorem forall₂_mem_left {α β : Type} {R : α → β → Prop} :
    ∀ {as : List α} {bs : List β}, List.Forall₂ R as bs → ∀ a ∈ as, ∃ b ∈ bs, R a b := by
  intro as bs h
  induction h with
  | nil => intro a ha; cases ha
  | cons hr _ ih =>
    intro a ha
    rcases List.mem_cons.1 ha with ha | ha
    · subst ha; exact ⟨_, List.mem_cons_self _ _, hr⟩
    · obtain ⟨b, hb, hbr⟩ := ih a ha
      exact ⟨b, List.mem_cons_of_mem _ hb, hbr⟩

/-- The grid runs align one-to-one with the grid, in order. -/
theorem candidate_runs_spec (cap0 : ℚ) (bars : List Bar) (signals : List SLOpt.SLSignal)
    (ps pe : ℤ) :
    ∀ (sls : List ℚ) (cands : List (ℚ × SLOpt.SLRun)),
      SLOpt.candidate_runs cap0 bars signals ps pe sls = some cands →
      List.Forall₂ (fun sl c => c.1 = sl ∧
        SLOpt.backtest_with_stop_loss cap0 bars signals sl ps pe = some c.2) sls cands := by
  intro sls
  induction sls with
  | nil =>
    intro cands h
    cases h
    exact List.Forall₂.nil
  | cons sl rest ih =>
    intro cands h
    rw [SLOpt.candidate_runs] at h
    cases hb : SLOpt.backtest_with_stop_loss cap0 bars signals sl ps pe with
    | none => rw [hb] at h; cases h
    | some r =>
      rw [hb] at h
      obtain ⟨l, hl, rfl⟩ := Option.map_eq_some'.1 h
      exact List.Forall₂.cons ⟨rfl, hb⟩ (ih l hl)

/-- The inner-loop fold returns a scanned candidate that weakly maximizes
the period score. -/
theorem pick_fold_spec :
    ∀ (cands : List (ℚ × SLOpt.SLRun)) (acc : Option (ℚ × SLOpt.SLRun))
      (b : ℚ × SLOpt.SLRun),
      cands.foldl SLOpt.pick_step acc = some b →
      (b ∈ cands ∨ acc = some b) ∧
      (∀ c ∈ cands, SLOpt.score060 c.2.trades ≤ SLOpt.score060 b.2.trades) ∧
      (∀ b₀, acc = some b₀ → SLOpt.score060 b₀.2.trades ≤ SLOpt.score060 b.2.trades) := by
  intro cands
  induction cands with
  | nil =>
    intro acc b h
    refine ⟨Or.inr h, fun c hc => absurd hc (by simp), ?_⟩
    intro b₀ h₀
    rw [h₀] at h
    cases h
    exact le_rfl
  | cons c rest ih =>
    intro acc b h
    rw [List.foldl_cons] at h
    obtain ⟨hmem, hmax, hacc⟩ := ih (SLOpt.pick_step acc c) b h
    have hstep : ∀ b₀, SLOpt.pick_step acc c = some b₀ →
        (b₀ = c ∨ acc = some b₀) ∧ SLOpt.score060 c.2.trades ≤ SLOpt.score060 b₀.2.trades := by
      intro b₀ h₀
      cases hA : acc with
      | none =>
        rw [hA] at h₀
        rw [SLOpt.pick_step] at h₀
        cases h₀
        exact ⟨Or.inl rfl, le_rfl⟩
      | some a =>
        rw [hA] at h₀
        rw [SLOpt.pick_step] at h₀
        by_cases hlt : SLOpt.score060 a.2.trades < SLOpt.score060 c.2.trades
        · rw [if_pos hlt] at h₀
          cases h₀
          exact ⟨Or.inl rfl, le_rfl⟩
        · rw [if_neg hlt] at h₀
          cases h₀
          exact ⟨Or.inr rfl, le_of_not_lt hlt⟩
    have hps : ∃ b₁, SLOpt.pick_step acc c = some b₁ := by
      cases hA : acc with
      | none => exact ⟨c, by rw [SLOpt.pick_step]⟩
      | some a =>
        rw [SLOpt.pick_step]
        by_cases hlt : SLOpt.score060 a.2.trades < SLOpt.score060 c.2.trades
        · exact ⟨c, by rw [if_pos hlt]⟩
        · exact ⟨a, by rw [if_neg hlt]⟩
    obtain ⟨b₁, hb₁⟩ := hps
    obtain ⟨hb₁mem, hb₁sc⟩ := hstep b₁ hb₁
    refine ⟨?_, ?_, ?_⟩
    · rcases hmem with hmem | hmem
      · exact Or.inl (List.mem_cons_of_mem c hmem)
      · rw [hb₁] at hmem
        cases hmem
        rcases hb₁mem with h₁ | h₁
        · subst h₁; exact Or.inl (List.mem_cons_self _ _)
        · exact Or.inr h₁
    · intro c' hc'
      rcases List.mem_cons.1 hc' with hc' | hc'
      · subst hc'
        exact le_trans hb₁sc (hacc b₁ hb₁)
      · exact hmax c' hc'
    · intro b₀ h₀
      cases hA : acc with
      | none => rw [hA] at h₀; cases h₀
      | some a =>
        rw [hA] at h₀
        cases h₀
        have : SLOpt.score060 b₀.2.trades ≤ SLOpt.score060 b₁.2.trades := by
          rw [hA] at hb₁
          rw [SLOpt.pick_step] at hb₁
          by_cases hlt : SLOpt.score060 b₀.2.trades < SLOpt.score060 c.2.trades
          · rw [if_pos hlt] at hb₁
            cases hb₁
            exact le_of_lt hlt
          · rw [if_neg hlt] at hb₁
            cases hb₁
            exact le_rfl
        exact le_trans this (hacc b₁ hb₁)

/-- The retained candidate of one bucket is on the grid, is its own run,
and weakly maximizes the score over the whole grid. -/
theorem optimize_one_period_spec (cap0 : ℚ) (bars : List Bar)
    (signals : List SLOpt.SLSignal) (ps pe : ℤ) (b : ℚ × SLOpt.SLRun)
    (h : SLOpt.optimize_one_period cap0 bars signals ps pe = some b) :
    b.1 ∈ SLOpt.test_intervals ∧
    SLOpt.backtest_with_stop_loss cap0 bars signals b.1 ps pe = some b.2 ∧
    (∀ sl ∈ SLOpt.test_intervals, ∀ r,
      SLOpt.backtest_with_stop_loss cap0 bars signals sl ps pe = some r →
      SLOpt.score060 r.trades ≤ SLOpt.score060 b.2.trades) := by
  rw [SLOpt.optimize_one_period] at h
  cases hc : SLOpt.candidate_runs cap0 bars signals ps pe SLOpt.test_intervals with
  | none => rw [hc] at h; cases h
  | some cands =>
    rw [hc] at h
    have hforall := candidate_runs_spec cap0 bars signals ps pe SLOpt.test_intervals cands hc
    obtain ⟨hmem, hmax, -⟩ := pick_fold_spec cands none b h
    rcases hmem with hmem | hmem
    · obtain ⟨sl, hsl, hc1, hc2⟩ := forall₂_mem_right hforall b hmem
      refine ⟨by rw [hc1]; exact hsl, by rw [hc1]; exact hc2, ?_⟩
      intro sl' hsl' r hr
      obtain ⟨c, hcm, hcc1, hcc2⟩ := forall₂_mem_left hforall sl' hsl'
      rw [hcc2] at hr
      cases hr
      exact hmax c hcm
    · cases hmem

/-- C7: in `_optimize_by_period`, buckets with fewer than 5 in-period
signals contribute nothing; every retained bucket contributes, in order,
one candidate from the grid {2,…,20}% whose run is its own backtest and
whose score `0.6 × Sharpe + 0.4 × (win_rate/100)` weakly dominates the
score of every grid candidate's run for that bucket. -/
theorem c7_bucket_sweep (cap0 : ℚ) (bars : List Bar) (signals : List SLOpt.SLSignal) :
    ∀ (periods : List (ℤ × ℤ)) (res : List (ℚ × SLOpt.SLRun)),
      SLOpt.optimize_by_period cap0 bars signals periods = some res →
      List.Forall₂ (fun (p : ℤ × ℤ) (b : ℚ × SLOpt.SLRun) =>
        b.1 ∈ SLOpt.test_intervals ∧
        SLOpt.backtest_with_stop_loss cap0 bars
          (signals.filter (fun s => p.1 ≤ s.date ∧ s.date ≤ p.2)) b.1 p.1 p.2 = some b.2 ∧
        ∀ sl ∈ SLOpt.test_intervals, ∀ r,
          SLOpt.backtest_with_stop_loss cap0 bars
            (signals.filter (fun s => p.1 ≤ s.date ∧ s.date ≤ p.2)) sl p.1 p.2 = some r →
          SLOpt.score060 r.trades ≤ SLOpt.score060 b.2.trades)
        (periods.filter (fun p =>
          ¬((signals.filter (fun s => p.1 ≤ s.date ∧ s.date ≤ p.2)).length < 5)))
        res := by
  intro periods
  induction periods with
  | nil =>
    intro res h
    rw [SLOpt.optimize_by_period] at h
    cases h
    exact List.Forall₂.nil
  | cons p rest ih =>
    obtain ⟨ps, pe⟩ := p
    intro res h
    simp only [SLOpt.optimize_by_period] at h
    by_cases hskip : (signals.filter (fun s => ps ≤ s.date ∧ s.date ≤ pe)).length < 5
    · rw [if_pos hskip] at h
      rw [List.filter_cons_of_neg (by simpa using hskip)]
      exact ih res h
    · rw [if_neg hskip] at h
      cases hone : SLOpt.optimize_one_period cap0 bars
          (signals.filter (fun s => ps ≤ s.date ∧ s.date ≤ pe)) ps pe with
      | none => rw [hone] at h; cases h
      | some b =>
        rw [hone] at h
        obtain ⟨l, hl, rfl⟩ := Option.map_eq_some'.1 h
        rw [List.filter_cons_of_pos (by simpa using hskip)]
        exact List.Forall₂.cons
          (optimize_one_period_spec cap0 bars _ ps pe b hone) (ih l hl)

/-- Eleven flat bars for the sweep witness bucket [0, 10]. -/
def c7Bars : List Bar :=
  (List.range 11).map (fun i =>
    { date := (i : ℤ), openPrice := 100, high := 100, low := 100, close := 100, volume := 1 })

/-- Five BUY signals (the bucket retention minimum) at the flat price. -/
def c7Sigs : List SLOpt.SLSignal :=
  (List.range 5).map (fun i => { date := (i : ℤ), action := .buy, price := 100 })

/-- The (stop-loss-independent) run every grid candidate produces on
`c7Bars`/`c7Sigs`: one zero-P&L period-end trade. -/
def c7Run : SLOpt.SLRun :=
  { trades := [{ entry_date := 0, exit_date := 10, entry_price := 100, exit_price := 100,
                 shares := 1000, pnl := 0, pnl_percent := 0, exit_reason := "Period End" }],
    capital := 100000, equity := [100000, 100000] }

set_option maxRecDepth 8000 in
/-- Witness for `c7_bucket_sweep`: a concrete one-bucket sweep whose five
signals retain the bucket; all grid candidates score equally, so the
first (2%) is kept. -/
theorem c7_bucket_sweep_witness :
    ∃ res, SLOpt.optimize_by_period 100000 c7Bars c7Sigs [((0 : ℤ), (10 : ℤ))] = some res ∧
      List.Forall₂ (fun (p : ℤ × ℤ) (b : ℚ × SLOpt.SLRun) =>
        b.1 ∈ SLOpt.test_intervals ∧
        SLOpt.backtest_with_stop_loss 100000 c7Bars
          (c7Sigs.filter (fun s => p.1 ≤ s.date ∧ s.date ≤ p.2)) b.1 p.1 p.2 = some b.2 ∧
        ∀ sl ∈ SLOpt.test_intervals, ∀ r,
          SLOpt.backtest_with_stop_loss 100000 c7Bars
            (c7Sigs.filter (fun s => p.1 ≤ s.date ∧ s.date ≤ p.2)) sl p.1 p.2 = some r →
          SLOpt.score060 r.trades ≤ SLOpt.score060 b.2.trades)
        ([((0 : ℤ), (10 : ℤ))].filter (fun p =>
          ¬((c7Sigs.filter (fun s => p.1 ≤ s.date ∧ s.date ≤ p.2)).length < 5)))
        res := by
  have hstep1 : ∀ c, SLOpt.pick_step none c = some c := fun c => by rw [SLOpt.pick_step]
  have hstep2 : ∀ sl₁ sl₂ : ℚ,
      SLOpt.pick_step (some (sl₁, c7Run)) (sl₂, c7Run) = some (sl₁, c7Run) := by
    intro sl₁ sl₂
    rw [SLOpt.pick_step]
    exact if_neg (lt_irrefl _)
  have hcand : SLOpt.candidate_runs 100000 c7Bars
      (c7Sigs.filter (fun s => (0 : ℤ) ≤ s.date ∧ s.date ≤ 10)) 0 10 SLOpt.test_intervals =
      some (SLOpt.test_intervals.map (fun sl => (sl, c7Run))) := by
    with_unfolding_all rfl
  have hone : SLOpt.optimize_one_period 100000 c7Bars
      (c7Sigs.filter (fun s => (0 : ℤ) ≤ s.date ∧ s.date ≤ 10)) 0 10 =
      some (2/100, c7Run) := by
    rw [SLOpt.optimize_one_period, hcand]
    show SLOpt.pick_best (SLOpt.test_intervals.map (fun sl => (sl, c7Run))) =
      some (2/100, c7Run)
    simp only [SLOpt.pick_best, SLOpt.test_intervals, List.map_cons, List.map_nil,
      List.foldl_cons, List.foldl_nil, hstep1, hstep2]
  have hopt : SLOpt.optimize_by_period 100000 c7Bars c7Sigs [((0 : ℤ), (10 : ℤ))] =
      some [(2/100, c7Run)] := by
    simp only [SLOpt.optimize_by_period]
    rw [if_neg (by with_unfolding_all decide), hone]
    rfl
  exact ⟨_, hopt, c7_bucket_sweep 100000 c7Bars c7Sigs [((0 : ℤ), (10 : ℤ))] _ hopt⟩
